import Mathlib

/-!
Shallow embedding of the cali repository calendar subsystem:
the mapping layer (MapProtoToEvent / MapProtoUpdateToEvent / MapEventToProto),
the calendar client list-call construction (Client.ListEvents), and the mock
Google Calendar server (googlecaltest.Server).  Definitions are translated
from the Go source; theorems settle the frozen claims about them.
-/

namespace Cali

/-! ### Decimal printing and parsing

Models fmt.Sprintf with verb d (used for event identifiers and page tokens)
and fmt.Sscanf with verb d (used to decode pageToken and maxResults).
-/

/-- Decimal digit character for a digit value below 10 (0 for larger input). -/
def digitChar (d : Nat) : Char :=
  match d with
  | 0 => '0' | 1 => '1' | 2 => '2' | 3 => '3' | 4 => '4'
  | 5 => '5' | 6 => '6' | 7 => '7' | 8 => '8' | 9 => '9'
  | _ + 10 => '0'

/-- Fuel-driven decimal digit emitter, least significant digit pushed first. -/
def natDecAux : Nat → Nat → List Char → List Char
  | 0, _, acc => acc
  | fuel + 1, n, acc =>
    if n < 10 then digitChar n :: acc
    else natDecAux fuel (n / 10) (digitChar (n % 10) :: acc)

/-- Decimal representation of a natural number, as produced by fmt.Sprintf. -/
def natDecimalStr (n : Nat) : String := String.mk (natDecAux (n + 1) n [])

/-- Decimal representation of an integer, as produced by fmt.Sprintf. -/
def intDecimalStr (i : Int) : String :=
  if i < 0 then String.mk ('-' :: natDecAux (i.natAbs + 1) i.natAbs [])
  else natDecimalStr i.toNat

/-- ASCII decimal digit test. -/
def isDigit (c : Char) : Bool := 48 ≤ c.toNat && c.toNat ≤ 57

/-- Accumulating decimal value of a digit list. -/
def digitsToNat (acc : Nat) : List Char → Nat
  | [] => acc
  | c :: cs => digitsToNat (acc * 10 + (c.toNat - 48)) cs

/-- Leading-integer parse of a string: the digit reading of fmt.Sscanf with
verb d — an optional sign followed by at least one digit, trailing
characters ignored, none when no digit can be read.  The int64 range check
the verb performs on top of this is modelled separately by parseGoInt64;
this unbounded reading coincides with it on every in-range decimal. -/
def parseGoInt (s : String) : Option Int :=
  match s.data with
  | [] => none
  | c :: cs =>
    if c = '-' then
      let ds := cs.takeWhile isDigit
      if ds.isEmpty then none else some (-(digitsToNat 0 ds : Int))
    else if c = '+' then
      let ds := cs.takeWhile isDigit
      if ds.isEmpty then none else some (digitsToNat 0 ds : Int)
    else
      let ds := (c :: cs).takeWhile isDigit
      if ds.isEmpty then none else some (digitsToNat 0 ds : Int)

theorem digitsToNat_nil (a : Nat) : digitsToNat a [] = a := rfl

theorem digitsToNat_cons (a : Nat) (c : Char) (cs : List Char) :
    digitsToNat a (c :: cs) = digitsToNat (a * 10 + (c.toNat - 48)) cs := rfl

theorem digitChar_isDigit (d : Nat) : isDigit (digitChar d) = true := by
  match d with
  | 0 | 1 | 2 | 3 | 4 | 5 | 6 | 7 | 8 | 9 => rfl
  | _ + 10 => rfl

theorem digitChar_toNat (d : Nat) (h : d < 10) : (digitChar d).toNat = 48 + d := by
  match d with
  | 0 | 1 | 2 | 3 | 4 | 5 | 6 | 7 | 8 | 9 => rfl
  | e + 10 => omega

theorem natDecAux_append (fuel n : Nat) (acc : List Char) (h : n < fuel) :
    natDecAux fuel n acc = natDecAux fuel n [] ++ acc := by
  induction fuel generalizing n acc with
  | zero => omega
  | succ fuel ih =>
    by_cases hn : n < 10
    · simp [natDecAux, hn]
    · have h10 : n / 10 < fuel := by omega
      rw [natDecAux, natDecAux, if_neg hn, if_neg hn, ih _ _ h10, ih _ [digitChar (n % 10)] h10,
        List.append_assoc]
      rfl

theorem natDecAux_fuel (f₁ f₂ n : Nat) (h₁ : n < f₁) (h₂ : n < f₂) :
    natDecAux f₁ n [] = natDecAux f₂ n [] := by
  induction f₁ generalizing f₂ n with
  | zero => omega
  | succ f₁ ih =>
    match f₂, h₂ with
    | f₂ + 1, h₂ =>
      by_cases hn : n < 10
      · simp [natDecAux, hn]
      · have h10a : n / 10 < f₁ := by omega
        have h10b : n / 10 < f₂ := by omega
        rw [natDecAux, natDecAux, if_neg hn, if_neg hn,
          natDecAux_append _ _ _ h10a, natDecAux_append _ _ _ h10b, ih _ _ h10a h10b]

theorem natDecAux_digits (fuel n : Nat) (h : n < fuel) :
    ∀ c ∈ natDecAux fuel n [], isDigit c = true := by
  induction fuel generalizing n with
  | zero => omega
  | succ fuel ih =>
    intro c hc
    by_cases hn : n < 10
    · simp [natDecAux, hn] at hc
      subst hc; exact digitChar_isDigit n
    · have h10 : n / 10 < fuel := by omega
      rw [natDecAux, if_neg hn, natDecAux_append _ _ _ h10] at hc
      rcases List.mem_append.mp hc with hc | hc
      · exact ih _ h10 c hc
      · simp at hc; subst hc; exact digitChar_isDigit _

theorem digitsToNat_snoc (cs : List Char) (c : Char) (a : Nat) :
    digitsToNat a (cs ++ [c]) = digitsToNat a cs * 10 + (c.toNat - 48) := by
  induction cs generalizing a with
  | nil => rfl
  | cons x xs ih =>
    rw [List.cons_append, digitsToNat_cons, ih, digitsToNat_cons]

theorem digitsToNat_natDecAux (fuel n : Nat) (h : n < fuel) :
    digitsToNat 0 (natDecAux fuel n []) = n := by
  induction fuel generalizing n with
  | zero => omega
  | succ fuel ih =>
    by_cases hn : n < 10
    · rw [natDecAux, if_pos hn, digitsToNat_cons, digitsToNat_nil, digitChar_toNat n hn]
      omega
    · have h10 : n / 10 < fuel := by omega
      rw [natDecAux, if_neg hn, natDecAux_append _ _ _ h10, digitsToNat_snoc,
        ih _ h10, digitChar_toNat _ (Nat.mod_lt n (by omega))]
      omega

theorem natDecAux_ne_nil (fuel n : Nat) (h : n < fuel) : natDecAux fuel n [] ≠ [] := by
  match fuel, h with
  | fuel + 1, h =>
    by_cases hn : n < 10
    · simp [natDecAux, hn]
    · have h10 : n / 10 < fuel := by omega
      rw [natDecAux, if_neg hn, natDecAux_append _ _ _ h10]
      simp

theorem natDecimalStr_ne_empty (n : Nat) : natDecimalStr n ≠ "" := by
  intro hcontra
  have : natDecAux (n + 1) n [] = [] := by
    have := congrArg String.data hcontra
    simpa [natDecimalStr] using this
  exact natDecAux_ne_nil (n + 1) n (by omega) this

theorem parseGoInt_natDecimalStr (n : Nat) : parseGoInt (natDecimalStr n) = some (n : Int) := by
  have hne := natDecAux_ne_nil (n + 1) n (by omega)
  have hdigits := natDecAux_digits (n + 1) n (by omega)
  have hval := digitsToNat_natDecAux (n + 1) n (by omega)
  have htake : (natDecAux (n + 1) n []).takeWhile isDigit = natDecAux (n + 1) n [] :=
    List.takeWhile_eq_self_iff.mpr (by intro c hc; exact hdigits c hc)
  rcases hds : natDecAux (n + 1) n [] with _ | ⟨c, cs⟩
  · exact absurd hds hne
  · have hc : isDigit c = true := hdigits c (by rw [hds]; exact List.mem_cons_self _ _)
    have hcne1 : c ≠ '-' := by intro h; subst h; simp [isDigit] at hc
    have hcne2 : c ≠ '+' := by intro h; subst h; simp [isDigit] at hc
    rw [hds] at htake hval
    unfold parseGoInt natDecimalStr
    simp only [hds, if_neg hcne1, if_neg hcne2, htake, List.isEmpty_cons, hval]
    rfl

/-! ### RFC3339 wire format at second precision

Models Go time formatting and parsing with the RFC3339 layout as used by the
repository: MapProtoToEvent and the client format instants in UTC with layout
2006-01-02T15:04:05Z07:00, and MapEventToProto parses that layout back, or a
date-only layout 2006-01-02 for all-day events.  Instants are unix seconds;
the layout carries no sub-second digits.
-/

/-- Gregorian leap-year test. -/
def isLeap (y : Int) : Bool := (y % 4 == 0 && y % 100 != 0) || y % 400 == 0

/-- Days in a month of a given year (0 for an invalid month number). -/
def daysInMonth (y : Int) (m : Nat) : Nat :=
  match m with
  | 1 => 31 | 2 => if isLeap y then 29 else 28 | 3 => 31 | 4 => 30
  | 5 => 31 | 6 => 30 | 7 => 31 | 8 => 31 | 9 => 30 | 10 => 31
  | 11 => 30 | 12 => 31 | _ => 0

/-- Days since the unix epoch of a civil date (standard era computation). -/
def daysFromCivil (y m d : Int) : Int :=
  let y2 : Int := if m ≤ 2 then y - 1 else y
  let era : Int := Int.ediv y2 400
  let yoe : Int := y2 - era * 400
  let mp : Int := Int.emod (m + 9) 12
  let doy : Int := Int.ediv (153 * mp + 2) 5 + d - 1
  let doe : Int := yoe * 365 + Int.ediv yoe 4 - Int.ediv yoe 100 + doy
  era * 146097 + doe - 719468

/-- Civil date from days since the unix epoch (inverse era computation). -/
def civilFromDays (z : Int) : Int × Int × Int :=
  let z2 := z + 719468
  let era := Int.ediv z2 146097
  let doe := z2 - era * 146097
  let yoe := Int.ediv (doe - Int.ediv doe 1460 + Int.ediv doe 36524 - Int.ediv doe 146096) 365
  let y := yoe + era * 400
  let doy := doe - (365 * yoe + Int.ediv yoe 4 - Int.ediv yoe 100)
  let mp := Int.ediv (5 * doy + 2) 153
  let d := doy - Int.ediv (153 * mp + 2) 5 + 1
  let m := if mp < 10 then mp + 3 else mp - 9
  (if m ≤ 2 then y + 1 else y, m, d)

/-- Two-digit zero-padded decimal rendering. -/
def pad2 (n : Nat) : List Char := [digitChar (n / 10 % 10), digitChar (n % 10)]

/-- Four-digit zero-padded decimal rendering. -/
def pad4 (n : Nat) : List Char :=
  [digitChar (n / 1000 % 10), digitChar (n / 100 % 10), digitChar (n / 10 % 10), digitChar (n % 10)]

/-- RFC3339 rendering of a unix-seconds instant in UTC, as Go produces for a
UTC time with the RFC3339 layout. -/
def formatRFC3339 (t : Int) : String :=
  let days := Int.ediv t 86400
  let secs := (Int.emod t 86400).toNat
  let ymd := civilFromDays days
  String.mk (pad4 ymd.1.toNat ++ ['-'] ++ pad2 ymd.2.1.toNat ++ ['-'] ++ pad2 ymd.2.2.toNat ++
    ['T'] ++ pad2 (secs / 3600) ++ [':'] ++ pad2 (secs % 3600 / 60) ++ [':'] ++
    pad2 (secs % 60) ++ ['Z'])

/-- Value of a two-digit group, none unless both characters are digits. -/
def twoDigits (a b : Char) : Option Nat :=
  if isDigit a && isDigit b then some ((a.toNat - 48) * 10 + (b.toNat - 48)) else none

/-- Trailing zone suffix of an RFC3339 string: Z, or a numeric offset, giving
offset seconds east of UTC.  none when malformed. -/
def parseZone : List Char → Option Int
  | ['Z'] => some 0
  | [sign, h1, h2, ':', m1, m2] =>
    match twoDigits h1 h2, twoDigits m1 m2 with
    | some hh, some mm =>
      if sign = '+' then some ((hh * 3600 + mm * 60 : Nat) : Int)
      else if sign = '-' then some (-((hh * 3600 + mm * 60 : Nat) : Int))
      else none
    | _, _ => none
  | _ => none

/-- Drops a fractional-second group, which Go accepts after the seconds even
though the RFC3339 layout carries none: a dot followed by at least one digit. -/
def dropFraction : List Char → Option (List Char)
  | '.' :: rest =>
    let ds := rest.takeWhile isDigit
    if ds.isEmpty then none else some (rest.drop ds.length)
  | rest => some rest

/-- Parse of an RFC3339 date-time into unix seconds; mirrors Go time.Parse
with the RFC3339 layout (full date, T, full clock, optional fraction, zone),
returning none on any malformed or out-of-range component. -/
def parseRFC3339 (s : String) : Option Int :=
  match s.data with
  | y1 :: y2 :: y3 :: y4 :: '-' :: mo1 :: mo2 :: '-' :: d1 :: d2 :: 'T' ::
      h1 :: h2 :: ':' :: mi1 :: mi2 :: ':' :: s1 :: s2 :: rest =>
    match twoDigits y1 y2, twoDigits y3 y4, twoDigits mo1 mo2, twoDigits d1 d2,
        twoDigits h1 h2, twoDigits mi1 mi2, twoDigits s1 s2 with
    | some yhi, some ylo, some mo, some da, some hh, some mi, some ss =>
      let y := yhi * 100 + ylo
      if 1 ≤ mo && mo ≤ 12 && 1 ≤ da && da ≤ daysInMonth (y : Int) mo &&
          hh ≤ 23 && mi ≤ 59 && ss ≤ 59 then
        match dropFraction rest with
        | some zone =>
          match parseZone zone with
          | some off =>
            some (daysFromCivil (y : Int) (mo : Int) (da : Int) * 86400 +
              ((hh * 3600 + mi * 60 + ss : Nat) : Int) - off)
          | none => none
        | none => none
      else none
    | _, _, _, _, _, _, _ => none
  | _ => none

/-- Parse of a date-only value into unix seconds at UTC midnight; mirrors Go
time.Parse with the 2006-01-02 layout. -/
def parseDateOnly (s : String) : Option Int :=
  match s.data with
  | [y1, y2, y3, y4, '-', mo1, mo2, '-', d1, d2] =>
    match twoDigits y1 y2, twoDigits y3 y4, twoDigits mo1 mo2, twoDigits d1 d2 with
    | some yhi, some ylo, some mo, some da =>
      let y := yhi * 100 + ylo
      if 1 ≤ mo && mo ≤ 12 && 1 ≤ da && da ≤ daysInMonth (y : Int) mo then
        some (daysFromCivil (y : Int) (mo : Int) (da : Int) * 86400)
      else none
    | _, _, _, _ => none
  | _ => none

theorem formatRFC3339_ne_empty (t : Int) : formatRFC3339 t ≠ "" := by
  intro hcontra
  have := congrArg String.data hcontra
  simp [formatRFC3339, pad4, pad2] at this

/-! ### Go string comparison

Go compares strings bytewise; on UTF-8 encodings that coincides with
lexicographic comparison of the scalar-value sequences, embedded here
structurally so that concrete comparisons evaluate.
-/

/-- Lexicographic strict comparison of character lists by scalar value. -/
def goStrLtB : List Char → List Char → Bool
  | [], [] => false
  | [], _ :: _ => true
  | _ :: _, [] => false
  | a :: as, b :: bs => if a < b then true else if b < a then false else goStrLtB as bs

/-- Go string strict less-than. -/
def goLt (s t : String) : Bool := goStrLtB s.data t.data

/-- Go string less-or-equal, the negation of the reversed strict order. -/
def goLe (s t : String) : Bool := !goLt t s

theorem goStrLtB_asymm : ∀ as bs, goStrLtB as bs = true → goStrLtB bs as = true → False
  | [], [], h, _ => by simp [goStrLtB] at h
  | [], _ :: _, _, h => by simp [goStrLtB] at h
  | _ :: _, [], h, _ => by simp [goStrLtB] at h
  | a :: as, b :: bs, h₁, h₂ => by
    by_cases hab : a < b
    · have hba : ¬b < a := lt_asymm hab
      simp [goStrLtB, hab, hba] at h₂
    · by_cases hba : b < a
      · simp [goStrLtB, hab, hba] at h₁
      · simp [goStrLtB, hab, hba] at h₁ h₂
        exact goStrLtB_asymm as bs h₁ h₂

theorem goStrLtB_trans :
    ∀ as bs cs, goStrLtB as bs = true → goStrLtB bs cs = true → goStrLtB as cs = true
  | [], _, _ :: _, _, _ => by simp [goStrLtB]
  | [], bs, [], _, h₂ => by cases bs <;> simp [goStrLtB] at h₂
  | _ :: _, bs, [], h₁, h₂ => by
    cases bs
    · simp [goStrLtB] at h₁
    · simp [goStrLtB] at h₂
  | a :: as, b :: bs, c :: cs, h₁, h₂ => by
    by_cases hab : a < b
    · by_cases hbc : b < c
      · have hac : a < c := lt_trans hab hbc
        simp [goStrLtB, hac]
      · by_cases hcb : c < b
        · simp [goStrLtB, hbc, hcb] at h₂
        · have hbc2 : b = c := le_antisymm (not_lt.mp hcb) (not_lt.mp hbc)
          subst hbc2
          simp [goStrLtB, hab]
    · by_cases hba : b < a
      · simp [goStrLtB, hab, hba] at h₁
      · have hab2 : a = b := le_antisymm (not_lt.mp hba) (not_lt.mp hab)
        subst hab2
        by_cases hac : a < c
        · simp [goStrLtB, hac]
        · by_cases hca : c < a
          · simp [goStrLtB, hac, hca] at h₂
          · simp [goStrLtB, hab, hac, hca] at h₁ h₂ ⊢
            exact goStrLtB_trans as bs cs h₁ h₂

theorem goStrLtB_trich : ∀ as bs, goStrLtB as bs = true ∨ as = bs ∨ goStrLtB bs as = true
  | [], [] => Or.inr (Or.inl rfl)
  | [], _ :: _ => Or.inl (by simp [goStrLtB])
  | _ :: _, [] => Or.inr (Or.inr (by simp [goStrLtB]))
  | a :: as, b :: bs => by
    rcases lt_trichotomy a b with hab | hab | hab
    · exact Or.inl (by simp [goStrLtB, hab])
    · subst hab
      rcases goStrLtB_trich as bs with h | h | h
      · exact Or.inl (by simp [goStrLtB, h])
      · exact Or.inr (Or.inl (by rw [h]))
      · exact Or.inr (Or.inr (by simp [goStrLtB, h]))
    · exact Or.inr (Or.inr (by simp [goStrLtB, hab, lt_asymm hab]))

theorem goLe_total (s t : String) : goLe s t = true ∨ goLe t s = true := by
  by_cases h : goLt t s = true
  · right
    by_cases h2 : goLt s t = true
    · exact absurd (goStrLtB_asymm _ _ h h2) not_false
    · simpa [goLe] using h2
  · left
    simpa [goLe] using h

theorem goLe_trans {s t u : String} (h₁ : goLe s t = true) (h₂ : goLe t u = true) :
    goLe s u = true := by
  simp only [goLe, goLt, Bool.not_eq_true'] at h₁ h₂ ⊢
  by_cases hus : goStrLtB u.data s.data = true
  · exfalso
    rcases goStrLtB_trich u.data t.data with h | h | h
    · rw [h] at h₂; exact absurd h₂ (by simp)
    · rw [h] at hus; rw [hus] at h₁; exact absurd h₁ (by simp)
    · have h3 := goStrLtB_trans t.data u.data s.data h hus
      rw [h3] at h₁; exact absurd h₁ (by simp)
  · simpa using hus

theorem goLe_antisymm {s t : String} (h₁ : goLe s t = true) (h₂ : goLe t s = true) : s = t := by
  simp only [goLe, goLt, Bool.not_eq_true'] at h₁ h₂
  rcases goStrLtB_trich s.data t.data with h | h | h
  · rw [h] at h₂; exact absurd h₂ (by simp)
  · exact String.ext h
  · rw [h] at h₁; exact absurd h₁ (by simp)

/-! ### Data model

Embeddings of the Google Calendar API event shape (calendar.Event, as used by
this repository) and of the generated request and response messages of the
proto package, with the field shapes the repository reads and writes: plain
strings for always-present fields, options for pointer-typed optional fields.
-/

/-- Start or end of an event: calendar.EventDateTime. -/
structure EventDateTime where
  dateTime : String
  date : String
  timeZone : String
deriving DecidableEq, Repr

/-- Origin of an event: calendar.EventSource. -/
structure EventSource where
  title : String
  url : String
deriving DecidableEq, Repr

/-- Organizer of an event: calendar.EventOrganizer. -/
structure EventOrganizer where
  email : String
  displayName : String
deriving DecidableEq, Repr

/-- One conference entry point: calendar.EntryPoint. -/
structure EntryPoint where
  entryPointType : String
  uri : String
deriving DecidableEq, Repr

/-- Conference data attached to an event: calendar.ConferenceData. -/
structure ConferenceData where
  entryPoints : List EntryPoint
  conferenceId : String
deriving DecidableEq, Repr

/-- One attendee record: calendar.EventAttendee. -/
structure EventAttendee where
  email : String
deriving DecidableEq, Repr

/-- The provider event shape: calendar.Event, restricted to the fields this
repository touches.  Pointer-typed fields of the Go struct are options here;
plain string and bool fields keep their Go zero values for absent. -/
structure GEvent where
  id : String := ""
  summary : String := ""
  description : String := ""
  location : String := ""
  status : String := ""
  htmlLink : String := ""
  created : String := ""
  updated : String := ""
  transparency : String := ""
  start : Option EventDateTime := none
  end_ : Option EventDateTime := none
  guestsCanSeeOtherGuests : Option Bool := none
  guestsCanModify : Bool := false
  guestsCanInviteOthers : Option Bool := none
  source : Option EventSource := none
  organizer : Option EventOrganizer := none
  conferenceData : Option ConferenceData := none
  attendees : List EventAttendee := []
deriving DecidableEq, Repr

/-- The generated proto AddEventRequest, with the fields the repository uses.
Timestamps are unix seconds at the precision of the wire format. -/
structure AddEventRequest where
  summary : String := ""
  description : Option String := none
  location : Option String := none
  startTime : Option Int := none
  endTime : Option Int := none
  calendarId : Option String := none
  idempotencyKey : Option String := none
  guestsCanSeeOtherGuests : Option Bool := none
  guestsCanModify : Option Bool := none
  guestsCanInviteOthers : Option Bool := none
  sourceTitle : Option String := none
  sourceUrl : Option String := none
  blocksTime : Option Bool := none
deriving DecidableEq, Repr

/-- The generated proto UpdateEventRequest, with the fields the repository
uses in MapProtoUpdateToEvent. -/
structure UpdateEventRequest where
  eventId : String := ""
  calendarId : Option String := none
  summary : Option String := none
  description : Option String := none
  location : Option String := none
  startTime : Option Int := none
  endTime : Option Int := none
  guestsCanSeeOtherGuests : Option Bool := none
  guestsCanModify : Option Bool := none
  guestsCanInviteOthers : Option Bool := none
  sourceTitle : Option String := none
  sourceUrl : Option String := none
  blocksTime : Option Bool := none
deriving DecidableEq, Repr

/-- The generated proto Event response message, with the fields
MapEventToProto writes. -/
structure ProtoEvent where
  id : String := ""
  summary : String := ""
  htmlLink : String := ""
  calendarId : String := ""
  description : Option String := none
  location : Option String := none
  status : Option String := none
  transparency : Option String := none
  organizerEmail : Option String := none
  organizerName : Option String := none
  conferenceUri : Option String := none
  conferenceId : Option String := none
  sourceTitle : Option String := none
  sourceUrl : Option String := none
  startTime : Option Int := none
  endTime : Option Int := none
  attendees : List String := []
deriving DecidableEq, Repr

/-! ### Mapping layer

Translation of the package calendar mapping functions: MapProtoToEvent,
MapProtoUpdateToEvent and MapEventToProto.  The Go functions read the wall
clock for default times; the instant observed is an explicit argument here.
-/

/-- Default start when the request carries none: current time advanced to the
top of the next hour, as computed by MapProtoToEvent from time.Now. -/
def nextHourDefault (now : Int) : Int :=
  now + (3600 - Int.ediv (Int.emod now 3600) 60 * 60 - Int.emod now 60)

/-- Start instant used by MapProtoToEvent: the request start when present,
else the top of the next hour. -/
def addDefaultStart (req : AddEventRequest) (now : Int) : Int :=
  match req.startTime with
  | some t => t
  | none => nextHourDefault now

/-- End instant used by MapProtoToEvent: the request end when present, else
one hour after the resolved start. -/
def addDefaultEnd (req : AddEventRequest) (now : Int) : Int :=
  match req.endTime with
  | some t => t
  | none => addDefaultStart req now + 3600

/-- MapProtoToEvent: converts a proto AddEventRequest to a provider event. -/
def MapProtoToEvent (req : AddEventRequest) (now : Int) : GEvent :=
  let id := match req.idempotencyKey with
    | some k => if k ≠ "" then k else ""
    | none => ""
  let description := match req.description with
    | some d => if d ≠ "" then d else ""
    | none => ""
  let location := match req.location with
    | some l => if l ≠ "" then l else ""
    | none => ""
  let source : Option EventSource :=
    if (match req.sourceTitle with | some t => decide (t ≠ "") | none => false) ||
        (match req.sourceUrl with | some u => decide (u ≠ "") | none => false) then
      some { title := req.sourceTitle.getD "", url := req.sourceUrl.getD "" }
    else none
  let transparency := if req.blocksTime = some true then "opaque" else "transparent"
  let startTime := addDefaultStart req now
  let endTime := addDefaultEnd req now
  { summary := req.summary
    id := id
    description := description
    location := location
    guestsCanSeeOtherGuests := req.guestsCanSeeOtherGuests
    guestsCanModify := match req.guestsCanModify with | some b => b | none => false
    guestsCanInviteOthers := req.guestsCanInviteOthers
    source := source
    transparency := transparency
    start := some { dateTime := formatRFC3339 startTime, date := "", timeZone := "UTC" }
    end_ := some { dateTime := formatRFC3339 endTime, date := "", timeZone := "UTC" } }

/-- MapProtoUpdateToEvent: applies a sparse patch from an UpdateEventRequest
onto an existing provider event. -/
def MapProtoUpdateToEvent (req : UpdateEventRequest) (existingEvent : GEvent) : GEvent :=
  let e1 := match req.summary with
    | some s => if s ≠ "" then { existingEvent with summary := s } else existingEvent
    | none => existingEvent
  let e2 := match req.description with
    | some d => if d ≠ "" then { e1 with description := d } else e1
    | none => e1
  let e3 := match req.location with
    | some l => if l ≠ "" then { e2 with location := l } else e2
    | none => e2
  let e4 := match req.guestsCanSeeOtherGuests with
    | some b => { e3 with guestsCanSeeOtherGuests := some b }
    | none => e3
  let e5 := match req.guestsCanModify with
    | some b => { e4 with guestsCanModify := b }
    | none => e4
  let e6 := match req.guestsCanInviteOthers with
    | some b => { e5 with guestsCanInviteOthers := some b }
    | none => e5
  let e7 :=
    if req.sourceTitle ≠ none ∨ req.sourceUrl ≠ none then
      let base := (e6.source).getD { title := "", url := "" }
      let withTitle := match req.sourceTitle with
        | some t => { base with title := t }
        | none => base
      let withUrl := match req.sourceUrl with
        | some u => { withTitle with url := u }
        | none => withTitle
      { e6 with source := some withUrl }
    else e6
  let e8 := match req.blocksTime with
    | some b => { e7 with transparency := if b then "opaque" else "transparent" }
    | none => e7
  let e9 := match req.startTime with
    | some t => { e8 with start := some { dateTime := formatRFC3339 t, date := "", timeZone := "UTC" } }
    | none => e8
  match req.endTime with
  | some t => { e9 with end_ := some { dateTime := formatRFC3339 t, date := "", timeZone := "UTC" } }
  | none => e9

/-- Resolved start instant of a provider event as MapEventToProto computes it:
the parsed date-time when that string is non-empty, else the parsed date-only
value when non-empty, else absent; a parse failure is absent. -/
def startInstant (dt : Option EventDateTime) : Option Int :=
  match dt with
  | none => none
  | some s =>
    if s.dateTime ≠ "" then parseRFC3339 s.dateTime
    else if s.date ≠ "" then parseDateOnly s.date
    else none

/-- First video entry point with a non-empty URI, as MapEventToProto scans
conference entry points. -/
def firstVideoUri : List EntryPoint → Option String
  | [] => none
  | ep :: rest =>
    if ep.entryPointType = "video" ∧ ep.uri ≠ "" then some ep.uri
    else firstVideoUri rest

/-- MapEventToProto: converts a provider event to the proto Event response. -/
def MapEventToProto (event : GEvent) (calendarID : String) : ProtoEvent :=
  { id := event.id
    summary := event.summary
    htmlLink := event.htmlLink
    calendarId := calendarID
    description := if event.description ≠ "" then some event.description else none
    location := if event.location ≠ "" then some event.location else none
    status := if event.status ≠ "" then some event.status else none
    transparency := if event.transparency ≠ "" then some event.transparency else none
    organizerEmail := match event.organizer with
      | some o => if o.email ≠ "" then some o.email else none
      | none => none
    organizerName := match event.organizer with
      | some o => if o.displayName ≠ "" then some o.displayName else none
      | none => none
    conferenceUri := match event.conferenceData with
      | some cd => firstVideoUri cd.entryPoints
      | none => none
    conferenceId := match event.conferenceData with
      | some cd => if cd.conferenceId ≠ "" then some cd.conferenceId else none
      | none => none
    sourceTitle := match event.source with
      | some s => if s.title ≠ "" then some s.title else none
      | none => none
    sourceUrl := match event.source with
      | some s => if s.url ≠ "" then some s.url else none
      | none => none
    startTime := startInstant event.start
    endTime := startInstant event.end_
    attendees := (event.attendees.filter (fun a => a.email ≠ "")).map (·.email) }

/-! ### Calendar client: list-call construction

Translation of the query-building part of Client.ListEvents: which time
bounds, ordering, page size and page token the client attaches to the
provider List call.  The wall-clock instant read by time.Now is an explicit
argument.
-/

/-- The generated proto ListEventsRequest, with the fields Client.ListEvents
reads.  Timestamps are unix seconds; validity of a proto timestamp is a range
check modelled by tsValid. -/
structure ListEventsRequest where
  calendarId : Option String := none
  after : Option Int := none
  before : Option Int := none
  future : Option Bool := none
  past : Option Bool := none
  limit : Option Int := none
  anchor : Option String := none
deriving DecidableEq, Repr

/-- Validity of a proto timestamp: within year 1 to year 9999, the check
performed by the generated IsValid method. -/
def tsValid (t : Int) : Bool := -62135596800 ≤ t && t ≤ 253402300799

/-- Parameters of the provider Events.List call assembled by
Client.ListEvents. -/
structure ListCallParams where
  singleEvents : Bool := false
  timeMin : Option String := none
  timeMax : Option String := none
  orderBy : Option String := none
  maxResults : Option Int := none
  pageToken : Option String := none
deriving DecidableEq, Repr

/-- The condition under which Client.ListEvents treats the after bound as an
explicit usable timestamp: present, valid, and strictly after the epoch. -/
def explicitAfter (req : ListEventsRequest) : Bool :=
  match req.after with
  | some t => tsValid t && decide (0 < t)
  | none => false

/-- The condition under which Client.ListEvents treats the before bound as an
explicit usable timestamp: present, valid, and strictly after the epoch. -/
def explicitBefore (req : ListEventsRequest) : Bool :=
  match req.before with
  | some t => tsValid t && decide (0 < t)
  | none => false

/-- The timeMin bound attached inside the explicit branch: the after bound
when present, valid and strictly positive. -/
def tminExplicit (req : ListEventsRequest) : Option String :=
  match req.after with
  | some t => if tsValid t && decide (0 < t) then some (formatRFC3339 t) else none
  | none => none

/-- The timeMax bound attached inside the explicit branch: the before bound
when present, valid and strictly positive. -/
def tmaxExplicit (req : ListEventsRequest) : Option String :=
  match req.before with
  | some t => if tsValid t && decide (0 < t) then some (formatRFC3339 t) else none
  | none => none

/-- Time bounds and has-filter flag chosen by Client.ListEvents: explicit
bounds take precedence, else the future flag, else the past flag, else no
bound. -/
def buildBounds (req : ListEventsRequest) (now : Int) : Option String × Option String × Bool :=
  if explicitAfter req || explicitBefore req then
    (tminExplicit req, tmaxExplicit req, (tminExplicit req).isSome || (tmaxExplicit req).isSome)
  else if req.future = some true then
    (some (formatRFC3339 now), none, true)
  else if req.past = some true then
    (none, some (formatRFC3339 now), true)
  else
    (none, none, false)

/-- Query construction of Client.ListEvents: time-filter precedence between
explicit bounds and the future and past flags, ordering only under a time
filter, page size and page token pass-through. -/
def buildListCall (req : ListEventsRequest) (now : Int) : ListCallParams :=
  { singleEvents := true
    timeMin := (buildBounds req now).1
    timeMax := (buildBounds req now).2.1
    orderBy := if (buildBounds req now).2.2 then some "startTime" else none
    maxResults := match req.limit with
      | some l => if 0 < l then some l else none
      | none => none
    pageToken := match req.anchor with
      | some a => if a ≠ "" then some a else none
      | none => none }

/-! ### Mock provider server

Translation of googlecaltest.Server: an in-memory store of events per
calendar, and the insert, list, get, update, delete and test-helper
operations.  Go maps and the wall clock are modelled explicitly: the store is
an association list, and each List call receives the calendar snapshot as a
list in the iteration order the Go map range produced for that call — the Go
specification leaves that order unspecified and unstable between iterations,
so it is a free argument of the operation.
-/

/-- Query parameters of a mock-server List request, as read by r.URL.Query:
the empty string stands for an absent parameter, exactly as query.Get
returns. -/
structure ListQuery where
  timeMin : String := ""
  timeMax : String := ""
  maxResults : String := ""
  pageToken : String := ""
  singleEvents : String := ""
  orderBy : String := ""
deriving DecidableEq, Repr

/-- Time filter of listEvents: an event is dropped when a bound is set, the
event has a timestamped start, and the start string falls outside the bound;
events without a timestamped start are never filtered. -/
def keepEvent (timeMin timeMax : String) (e : GEvent) : Bool :=
  let dropMin := timeMin ≠ "" &&
    (match e.start with
     | some s => decide (s.dateTime ≠ "") && goLt s.dateTime timeMin
     | none => false)
  let dropMax := timeMax ≠ "" &&
    (match e.start with
     | some s => decide (s.dateTime ≠ "") && goLt timeMax s.dateTime
     | none => false)
  !dropMin && !dropMax

/-- Sort key of listEvents: the date-time string when the start is present
and timestamped, else the date-only string, else empty. -/
def resolvedStart (e : GEvent) : String :=
  match e.start with
  | none => ""
  | some s => if s.dateTime ≠ "" then s.dateTime else s.date

/-- Comparison by resolved start used when listEvents sorts. -/
def startLE (a b : GEvent) : Prop := goLe (resolvedStart a) (resolvedStart b) = true

instance : DecidableRel startLE := fun a b =>
  inferInstanceAs (Decidable (goLe (resolvedStart a) (resolvedStart b) = true))

instance : IsTotal GEvent startLE := ⟨fun a b => goLe_total (resolvedStart a) (resolvedStart b)⟩

instance : IsTrans GEvent startLE := ⟨fun _ _ _ h₁ h₂ => goLe_trans h₁ h₂⟩

/-- The filtered and conditionally sorted event sequence that listEvents
paginates: the time filter always applies, the sort only under
orderBy equal startTime with singleEvents equal true. -/
def processedEvents (q : ListQuery) (snapshot : List GEvent) : List GEvent :=
  let filtered := snapshot.filter (keepEvent q.timeMin q.timeMax)
  if q.orderBy = "startTime" ∧ q.singleEvents = "true" then
    List.insertionSort startLE filtered
  else filtered

/-- Start index of the requested page: the decimal value of the page token,
left at zero when the token is absent or unreadable, as fmt.Sscanf leaves the
variable untouched on failure. -/
def startIdxOf (q : ListQuery) : Int :=
  if q.pageToken ≠ "" then (parseGoInt q.pageToken).getD 0 else 0

/-- Requested page size: the decimal value of maxResults, left at the length
of the processed sequence when absent or unreadable. -/
def maxResOf (q : ListQuery) (len : Nat) : Int :=
  if q.maxResults ≠ "" then (parseGoInt q.maxResults).getD (len : Int) else (len : Int)

/-- End index of the requested page: start plus size, clamped to the length
of the processed sequence. -/
def endIdxOf (q : ListQuery) (len : Nat) : Int :=
  if startIdxOf q + maxResOf q len > (len : Int) then (len : Int)
  else startIdxOf q + maxResOf q len

/-- listEvents of the mock server on one calendar snapshot: filter, sort,
then slice events at the token index.  The Go slice expression
events with bounds startIdx and endIdx panics unless
0 ≤ startIdx ≤ endIdx holds; none models that panic.  Returns the page
items and the next page token, empty when the page reaches the end. -/
def listEvents (q : ListQuery) (snapshot : List GEvent) : Option (List GEvent × String) :=
  if 0 ≤ startIdxOf q ∧ startIdxOf q ≤ endIdxOf q (processedEvents q snapshot).length then
    some (((processedEvents q snapshot).drop (startIdxOf q).toNat).take
        (endIdxOf q (processedEvents q snapshot).length - startIdxOf q).toNat,
      if endIdxOf q (processedEvents q snapshot).length < ((processedEvents q snapshot).length : Int)
      then intDecimalStr (endIdxOf q (processedEvents q snapshot).length) else "")
  else none

/-- Association-list lookup, modelling Go map indexing. -/
def alGet {β : Type} : List (String × β) → String → Option β
  | [], _ => none
  | (k, v) :: rest, key => if k = key then some v else alGet rest key

/-- Association-list store, modelling Go map assignment. -/
def alSet {β : Type} : List (String × β) → String → β → List (String × β)
  | [], key, v => [(key, v)]
  | (k, w) :: rest, key, v =>
    if k = key then (key, v) :: rest else (k, w) :: alSet rest key v

/-- Association-list removal, modelling the Go delete builtin. -/
def alRemove {β : Type} : List (String × β) → String → List (String × β)
  | [], _ => []
  | (k, w) :: rest, key => if k = key then rest else (k, w) :: alRemove rest key

/-- Whole mock-server store: calendar identifier to events, events keyed by
event identifier, plus the shared identifier counter. -/
structure ServerState where
  events : List (String × List (String × GEvent)) := []
  nextID : Nat := 1
deriving DecidableEq, Repr

/-- Fresh server state, as NewServer initialises it. -/
def initialServer : ServerState := {}

/-- Generated identifier for counter value n: event followed by the decimal
counter, as fmt.Sprintf produces. -/
def genEventId (n : Nat) : String := "event" ++ natDecimalStr n

/-- All event identifiers present in the store, across calendars. -/
def storeIds (st : ServerState) : List String :=
  st.events.flatMap (fun c => c.2.map (·.1))

/-- Event stored under a calendar and event identifier, none when the
calendar or the event is absent. -/
def lookupEvent (st : ServerState) (cal evId : String) : Option GEvent :=
  (alGet st.events cal).bind (fun m => alGet m evId)

/-- insertEvent of the mock server: assigns the next generated identifier,
overwriting any client-supplied one, stamps status, creation and update
times and the HTML link, stores the event, and returns it. -/
def insertEvent (st : ServerState) (cal : String) (body : GEvent) (now : Int) :
    ServerState × GEvent :=
  let id := genEventId st.nextID
  let created := formatRFC3339 now
  let ev := { body with
    id := id
    status := "confirmed"
    created := created
    updated := created
    htmlLink := "https://calendar.google.com/event?eid=" ++ id }
  let calEvents := (alGet st.events cal).getD []
  ({ events := alSet st.events cal (alSet calEvents id ev), nextID := st.nextID + 1 }, ev)

/-- AddEvent test helper: assigns a generated identifier only when the given
event carries none, and stores the event under its identifier. -/
def addEvent (st : ServerState) (cal : String) (event : GEvent) : ServerState :=
  let (ev, nextID) :=
    if event.id = "" then ({ event with id := genEventId st.nextID }, st.nextID + 1)
    else (event, st.nextID)
  let calEvents := (alGet st.events cal).getD []
  { events := alSet st.events cal (alSet calEvents ev.id ev), nextID := nextID }

/-- updateEvent of the mock server: requires the calendar and the event to
exist, replaces the stored event with the request body wholesale, but forces
the original identifier, creation time and HTML link, and stamps the update
time; none models the not-found responses. -/
def updateEvent (st : ServerState) (cal evId : String) (body : GEvent) (now : Int) :
    Option (ServerState × GEvent) :=
  match alGet st.events cal with
  | none => none
  | some calEvents =>
    match alGet calEvents evId with
    | none => none
    | some existing =>
      let stored := { body with
        id := evId
        created := existing.created
        updated := formatRFC3339 now
        htmlLink := existing.htmlLink }
      some ({ st with events := alSet st.events cal (alSet calEvents evId stored) }, stored)

/-- deleteEvent of the mock server: requires the calendar and the event to
exist, removes the entry; none models the not-found responses. -/
def deleteEvent (st : ServerState) (cal evId : String) : Option ServerState :=
  match alGet st.events cal with
  | none => none
  | some calEvents =>
    match alGet calEvents evId with
    | none => none
    | some _ => some { st with events := alSet st.events cal (alRemove calEvents evId) }

/-- One mock-server mutating request in a lifetime trace: an HTTP insert, an
HTTP delete, or the AddEvent test helper. -/
inductive MockOp where
  | ins (cal : String) (body : GEvent) (now : Int)
  | add (cal : String) (event : GEvent)
  | del (cal : String) (evId : String)
deriving DecidableEq, Repr

/-- State after one operation; a failing delete leaves the store unchanged,
as the handler only writes an error response. -/
def stepOp (st : ServerState) : MockOp → ServerState
  | .ins cal body now => (insertEvent st cal body now).1
  | .add cal event => addEvent st cal event
  | .del cal evId => (deleteEvent st cal evId).getD st

/-- Identifiers returned by the insert calls of a trace, in order. -/
def insertIds (st : ServerState) : List MockOp → List String
  | [] => []
  | .ins cal body now :: rest =>
    (insertEvent st cal body now).2.id :: insertIds (stepOp st (.ins cal body now)) rest
  | .add cal ev :: rest => insertIds (stepOp st (.add cal ev)) rest
  | .del cal evId :: rest => insertIds (stepOp st (.del cal evId)) rest

/-- Whether every insert call of a trace returns an identifier that is absent
from the store at the moment of that insert. -/
def insertsFresh (st : ServerState) : List MockOp → Bool
  | [] => true
  | .ins cal body now :: rest =>
    !((storeIds st).contains (insertEvent st cal body now).2.id) &&
      insertsFresh (stepOp st (.ins cal body now)) rest
  | .add cal ev :: rest => insertsFresh (stepOp st (.add cal ev)) rest
  | .del cal evId :: rest => insertsFresh (stepOp st (.del cal evId)) rest

/-- Driver that repeats List against one fixed snapshot, feeding each
returned page token to the next call, concatenating the pages.  none when a
call panics or the fuel runs out; some requires the final call to have
returned an empty token. -/
def drivePages (q : ListQuery) (snapshot : List GEvent) : Nat → String → Option (List GEvent)
  | 0, _ => none
  | fuel + 1, token =>
    match listEvents { q with pageToken := token } snapshot with
    | none => none
    | some (items, next) =>
      if next = "" then some items
      else (drivePages q snapshot fuel next).map (fun restItems => items ++ restItems)

/-! ### Helper lemmas -/

theorem alGet_alSet_self {β : Type} (m : List (String × β)) (k : String) (v : β) :
    alGet (alSet m k v) k = some v := by
  induction m with
  | nil => simp [alSet, alGet]
  | cons p rest ih =>
    by_cases h : p.1 = k
    · simp [alSet, h, alGet]
    · simp [alSet, h, alGet, ih]

/-- Concrete events used by counterexamples and witnesses. -/
def evA : GEvent := { id := "idA", summary := "A" }

/-- Second concrete event, distinct from evA. -/
def evB : GEvent := { id := "idB", summary := "B" }

/-- Query asking for one item per page and nothing else. -/
def qPage1 : ListQuery := { maxResults := "1" }

/-- Query asking for start-time ordering of expanded single events. -/
def qSorted : ListQuery := { orderBy := "startTime", singleEvents := "true" }

/-- Concrete event with a 10:00 timestamped start. -/
def evT10 : GEvent :=
  { id := "t10", start := some { dateTime := "2024-01-15T10:00:00Z", date := "", timeZone := "" } }

/-- Concrete event with a 12:00 timestamped start. -/
def evT12 : GEvent :=
  { id := "t12", start := some { dateTime := "2024-01-15T12:00:00Z", date := "", timeZone := "" } }

/-! ### C10: pagination index safety

The index variables of listEvents are Go 64-bit ints: fmt.Sscanf with verb d
refuses a decimal outside the int64 range (leaving the variable untouched),
and the sum startIdx + maxRes wraps two's-complement at 64 bits.  The
idealized startIdxOf, maxResOf and endIdxOf above compute in unbounded
integers; that is adequate for the pagination theorems whose hypotheses keep
every index tied to the snapshot length, but not for a safety statement
about arbitrary caller-supplied query values.  The following definitions
refine the index arithmetic of the same handler to exact int64 semantics,
and the index-safety results are settled against them. -/

/-- C5: with singleEvents=true and orderBy=startTime, every page the mock
server returns is non-decreasing by resolved start, the date-time string when
non-empty and the date-only string otherwise. -/
theorem listEvents_sorted_by_start (q : ListQuery) (l items : List GEvent) (tok : String)
    (hsingle : q.singleEvents = "true") (horder : q.orderBy = "startTime")
    (h : listEvents q l = some (items, tok)) :
    items.Pairwise startLE := by
  have hsorted : (processedEvents q l).Pairwise startLE := by
    unfold processedEvents
    rw [if_pos ⟨horder, hsingle⟩]
    exact List.sorted_insertionSort startLE _
  unfold listEvents at h
  split at h
  · have hitems : items = ((processedEvents q l).drop (startIdxOf q).toNat).take
        (endIdxOf q (processedEvents q l).length - startIdxOf q).toNat := by
      have := (Option.some.injEq _ _).mp h
      exact (congrArg Prod.fst this).symm
    rw [hitems]
    exact hsorted.sublist ((List.take_sublist _ _).trans (List.drop_sublist _ _))
  · exact absurd h (by simp)

/-- C5 witness: a concrete sorted listing obtained through the theorem. -/
theorem listEvents_sorted_by_start_witness :
    listEvents qSorted [evT12, evT10] = some ([evT10, evT12], "") ∧
      ([evT10, evT12] : List GEvent).Pairwise startLE := by
  refine ⟨by decide, ?_⟩
  exact listEvents_sorted_by_start qSorted [evT12, evT10] [evT10, evT12] "" rfl rfl (by decide)

/-! ### C2: determinism of the listing snapshot -/

/-- C2 counterexample: the claim asserts that two List executions against the
same unchanged store return the same sequence even without sorting.  The
handler iterates a Go map, whose iteration order is unspecified and unstable
between iterations; two snapshot orders of the same two-event store are both
legitimate executions of the same request against the same store, and they
return different sequences. -/
theorem listEvents_unsorted_not_deterministic :
    ([evA, evB] : List GEvent).Perm [evB, evA] ∧
      listEvents {} [evA, evB] = some ([evA, evB], "") ∧
      listEvents {} [evB, evA] = some ([evB, evA], "") ∧
      listEvents {} [evA, evB] ≠ listEvents {} [evB, evA] := by
  refine ⟨?_, by decide, by decide, by decide⟩
  decide

/-- Two sorted lists of events that are permutations of each other and whose
resolved starts are pairwise distinct are equal. -/
theorem sorted_eq_of_perm_of_nodup_starts :
    ∀ {l₁ l₂ : List GEvent}, l₁.Perm l₂ → (l₁.map resolvedStart).Nodup →
      l₁.Pairwise startLE → l₂.Pairwise startLE → l₁ = l₂ := by
  intro l₁
  induction l₁ with
  | nil =>
    intro l₂ hperm _ _ _
    exact hperm.nil_eq
  | cons a t₁ ih =>
    intro l₂ hperm hnodup hs₁ hs₂
    match l₂ with
    | [] => exact absurd hperm.symm.nil_eq (by simp)
    | b :: t₂ =>
      rw [List.map_cons, List.nodup_cons] at hnodup
      by_cases hab : a = b
      · subst hab
        have htails := hperm.cons_inv
        rw [ih htails hnodup.2 (List.pairwise_cons.mp hs₁).2 (List.pairwise_cons.mp hs₂).2]
      · exfalso
        have hat2 : a ∈ t₂ := by
          have := hperm.subset (List.mem_cons_self a t₁)
          simpa [hab] using this
        have hbt1 : b ∈ t₁ := by
          have := hperm.symm.subset (List.mem_cons_self b t₂)
          simpa [Ne.symm hab] using this
        have h₁ : startLE a b := (List.pairwise_cons.mp hs₁).1 b hbt1
        have h₂ : startLE b a := (List.pairwise_cons.mp hs₂).1 a hat2
        have hkey : resolvedStart a = resolvedStart b := goLe_antisymm h₁ h₂
        have hmem : resolvedStart a ∈ t₁.map resolvedStart := by
          rw [hkey]
          exact List.mem_map_of_mem resolvedStart hbt1
        exact hnodup.1 hmem

/-- C2 amended: the unsorted snapshot order is the Go map iteration order and
is not deterministic; determinism does hold once the handler sorts, provided
the resolved start times are pairwise distinct: with orderBy=startTime and
singleEvents=true, any two iteration orders of the same store yield the same
response. -/
theorem listEvents_deterministic_when_sorted (q : ListQuery) (l₁ l₂ : List GEvent)
    (hperm : l₁.Perm l₂)
    (horder : q.orderBy = "startTime") (hsingle : q.singleEvents = "true")
    (hkeys : (l₁.map resolvedStart).Nodup) :
    listEvents q l₁ = listEvents q l₂ := by
  have hfilter : (l₁.filter (keepEvent q.timeMin q.timeMax)).Perm
      (l₂.filter (keepEvent q.timeMin q.timeMax)) := hperm.filter _
  have hkeysf : ((l₁.filter (keepEvent q.timeMin q.timeMax)).map resolvedStart).Nodup :=
    hkeys.sublist ((List.filter_sublist l₁).map resolvedStart)
  have hproc : processedEvents q l₁ = processedEvents q l₂ := by
    unfold processedEvents
    rw [if_pos ⟨horder, hsingle⟩, if_pos ⟨horder, hsingle⟩]
    refine sorted_eq_of_perm_of_nodup_starts
      (((List.perm_insertionSort startLE _).trans hfilter).trans
        (List.perm_insertionSort startLE _).symm)
      ?_ (List.sorted_insertionSort startLE _) (List.sorted_insertionSort startLE _)
    exact ((List.perm_insertionSort startLE _).map resolvedStart).nodup_iff.mpr hkeysf
  unfold listEvents
  rw [hproc]

/-- C2 amended, witness: two iteration orders of a store with distinct start
times produce equal sorted responses. -/
theorem listEvents_deterministic_when_sorted_witness :
    listEvents qSorted [evT12, evT10] = listEvents qSorted [evT10, evT12] :=
  listEvents_deterministic_when_sorted qSorted [evT12, evT10] [evT10, evT12]
    (by decide) rfl rfl (by decide)

/-! ### C1: pagination coverage -/

theorem intDecimalStr_natCast (n : Nat) : intDecimalStr ((n : Nat) : Int) = natDecimalStr n := by
  unfold intDecimalStr
  rw [if_neg (by omega)]
  rfl

/-- listEvents at a page whose start index and page size decode to start and
k: the page is the k-window of the processed sequence at start, and the next
token is the decimal first unreturned index, empty at the end. -/
theorem listEvents_slice (q : ListQuery) (l : List GEvent) (start k : Nat)
    (hs : startIdxOf q = (start : Int))
    (hm : maxResOf q (processedEvents q l).length = (k : Int))
    (hle : start ≤ (processedEvents q l).length) :
    listEvents q l = some (((processedEvents q l).drop start).take k,
      if start + k < (processedEvents q l).length then
        intDecimalStr ((start + k : Nat) : Int) else "") := by
  have hend : endIdxOf q (processedEvents q l).length =
      ((min (start + k) (processedEvents q l).length : Nat) : Int) := by
    unfold endIdxOf
    rw [hs, hm]
    split <;> push_cast <;> omega
  unfold listEvents
  rw [hs, hend, if_pos ⟨by omega, by push_cast; omega⟩]
  have htoNat : ((start : Int)).toNat = start := by omega
  have hsub : (((min (start + k) (processedEvents q l).length : Nat) : Int) - (start : Int)).toNat
      = min (start + k) (processedEvents q l).length - start := by omega
  rw [htoNat, hsub]
  by_cases hcase : start + k < (processedEvents q l).length
  · have hmin : min (start + k) (processedEvents q l).length = start + k := by omega
    have hdiff : start + k - start = k := by omega
    rw [hmin, if_pos (by exact_mod_cast hcase), if_pos hcase, hdiff]
  · have hmin : min (start + k) (processedEvents q l).length =
        (processedEvents q l).length := by omega
    rw [hmin, if_neg (by omega), if_neg hcase]
    congr 1
    rw [List.take_of_length_le (by rw [List.length_drop]),
      List.take_of_length_le (by rw [List.length_drop]; omega)]

theorem drivePages_succ (q : ListQuery) (l : List GEvent) (fuel : Nat) (token : String) :
    drivePages q l (fuel + 1) token =
      match listEvents { q with pageToken := token } l with
      | none => none
      | some (items, next) =>
        if next = "" then some items
        else (drivePages q l fuel next).map (fun restItems => items ++ restItems) := rfl

theorem drivePages_succ_eq (q : ListQuery) (l : List GEvent) (fuel : Nat) (token : String)
    (items : List GEvent) (next : String)
    (h : listEvents { q with pageToken := token } l = some (items, next)) :
    drivePages q l (fuel + 1) token =
      if next = "" then some items
      else (drivePages q l fuel next).map (fun restItems => items ++ restItems) := by
  rw [drivePages_succ, h]

/-- Driving pages from a positive in-range decimal token returns exactly the
remainder of the processed sequence, ending on an empty token. -/
theorem drivePages_from (q : ListQuery) (l : List GEvent) (k : Nat) (hk : 0 < k)
    (hqmax : q.maxResults = natDecimalStr k) :
    ∀ fuel start : Nat, 0 < start → start ≤ (processedEvents q l).length →
      (processedEvents q l).length - start < fuel →
      drivePages q l fuel (natDecimalStr start) = some ((processedEvents q l).drop start) := by
  intro fuel
  induction fuel with
  | zero => intro start _ _ h; omega
  | succ fuel ih =>
    intro start hpos hle hfuel
    have hproc : processedEvents { q with pageToken := natDecimalStr start } l =
        processedEvents q l := rfl
    have hs : startIdxOf { q with pageToken := natDecimalStr start } = (start : Int) := by
      unfold startIdxOf
      rw [if_pos (by exact natDecimalStr_ne_empty start)]
      rw [show ({ q with pageToken := natDecimalStr start } : ListQuery).pageToken =
        natDecimalStr start from rfl]
      rw [parseGoInt_natDecimalStr]
      rfl
    have hm : maxResOf { q with pageToken := natDecimalStr start }
        (processedEvents q l).length = (k : Int) := by
      unfold maxResOf
      rw [show ({ q with pageToken := natDecimalStr start } : ListQuery).maxResults =
        q.maxResults from rfl, hqmax]
      rw [if_pos (by exact natDecimalStr_ne_empty k), parseGoInt_natDecimalStr]
      rfl
    have hslice := listEvents_slice { q with pageToken := natDecimalStr start } l start k hs
      (by rw [hproc]; exact hm) (by rw [hproc]; exact hle)
    rw [hproc] at hslice
    by_cases hcase : start + k < (processedEvents q l).length
    · have hsl : listEvents { q with pageToken := natDecimalStr start } l =
          some (((processedEvents q l).drop start).take k, natDecimalStr (start + k)) := by
        rw [hslice, if_pos hcase, intDecimalStr_natCast]
      rw [drivePages_succ_eq q l fuel _ _ _ hsl, if_neg (natDecimalStr_ne_empty (start + k))]
      rw [ih (start + k) (by omega) (by omega) (by omega)]
      simp only [Option.map_some']
      congr 1
      conv_rhs => rw [← List.take_append_drop k ((processedEvents q l).drop start)]
      congr 1
      rw [List.drop_drop]
    · have hsl : listEvents { q with pageToken := natDecimalStr start } l =
          some (((processedEvents q l).drop start).take k, "") := by
        rw [hslice, if_neg hcase]
      rw [drivePages_succ_eq q l fuel _ _ _ hsl, if_pos rfl]
      congr 1
      exact List.take_of_length_le (by rw [List.length_drop]; omega)

/-- C1 counterexample: the claim asserts that iterating List with the
returned cursors concatenates to every stored event exactly once.  Each List
call however re-snapshots the Go map in an unspecified iteration order; the
two orders of the same two-event store below are both legitimate, the first
call returns the first page of one order and the second call slices the
other order at the cursor, so the concatenation holds one event twice and
the other not at all. -/
theorem listEvents_pagination_reorder_duplicates :
    ([evA, evB] : List GEvent).Perm [evB, evA] ∧
      listEvents qPage1 [evA, evB] = some ([evA], "1") ∧
      listEvents { qPage1 with pageToken := "1" } [evB, evA] = some ([evA], "") ∧
      List.count evA ([evA] ++ [evA]) = 2 ∧ evB ∉ ([evA] ++ [evA]) := by
  refine ⟨by decide, by decide, by decide, by decide, by decide⟩

/-- C1 amended: the pages partition the snapshot only when every call
observes the same snapshot sequence, which the Go map iteration order does
not guarantee.  For one fixed snapshot, no time filter, page size k with
0 < k < n: the first call returns exactly k items and the non-empty decimal
cursor k, and driving the calls through the returned cursors terminates on
an empty cursor having concatenated exactly the processed sequence, itself a
permutation of the store holding each stored event exactly once. -/
theorem listEvents_pagination_partition (q : ListQuery) (l : List GEvent) (k : Nat)
    (htmin : q.timeMin = "") (htmax : q.timeMax = "")
    (hqmax : q.maxResults = natDecimalStr k) (hqtok : q.pageToken = "")
    (hk : 0 < k) (hkn : k < l.length) :
    (processedEvents q l).Perm l ∧
      listEvents q l = some ((processedEvents q l).take k, natDecimalStr k) ∧
      natDecimalStr k ≠ "" ∧ ((processedEvents q l).take k).length = k ∧
      drivePages q l (l.length + 1) "" = some (processedEvents q l) := by
  have hfilter : l.filter (keepEvent q.timeMin q.timeMax) = l := by
    rw [htmin, htmax]
    exact List.filter_eq_self.mpr (fun a _ => rfl)
  have hperm : (processedEvents q l).Perm l := by
    unfold processedEvents
    rw [hfilter]
    split
    · exact List.perm_insertionSort startLE l
    · exact List.Perm.refl l
  have hlen : (processedEvents q l).length = l.length := hperm.length_eq
  have hs : startIdxOf q = ((0 : Nat) : Int) := by
    unfold startIdxOf
    rw [if_neg (by simp [hqtok])]
    rfl
  have hm : maxResOf q (processedEvents q l).length = (k : Int) := by
    unfold maxResOf
    rw [hqmax, if_pos (by exact natDecimalStr_ne_empty k), parseGoInt_natDecimalStr]
    rfl
  have hfirst := listEvents_slice q l 0 k hs hm (by omega)
  rw [List.drop_zero, if_pos (by omega), intDecimalStr_natCast] at hfirst
  simp only [Nat.zero_add] at hfirst
  refine ⟨hperm, hfirst, natDecimalStr_ne_empty k, by rw [List.length_take]; omega, ?_⟩
  have hq0 : ({ q with pageToken := "" } : ListQuery) = q := by
    rw [← hqtok]
  have h1 : listEvents { q with pageToken := "" } l =
      some ((processedEvents q l).take k, natDecimalStr k) := by
    rw [hq0, hfirst]
  rw [drivePages_succ_eq q l l.length "" _ _ h1, if_neg (natDecimalStr_ne_empty k)]
  rw [drivePages_from q l k hk hqmax l.length k hk (by omega) (by omega)]
  simp only [Option.map_some']
  rw [List.take_append_drop]

/-- C1 amended, witness: page size one over a fixed three-event snapshot. -/
theorem listEvents_pagination_partition_witness :
    listEvents qPage1 [evA, evB, evT10] = some ([evA], "1") ∧
      drivePages qPage1 [evA, evB, evT10] 4 "" = some [evA, evB, evT10] := by
  have h := listEvents_pagination_partition qPage1 [evA, evB, evT10] 1
    rfl rfl rfl rfl (by omega) (by simp)
  refine ⟨?_, ?_⟩
  · have := h.2.1
    rwa [show processedEvents qPage1 [evA, evB, evT10] = [evA, evB, evT10] from rfl,
      show natDecimalStr 1 = "1" from rfl] at this
  · have := h.2.2.2.2
    rwa [show processedEvents qPage1 [evA, evB, evT10] = [evA, evB, evT10] from rfl] at this

/-! ### C7: update is a full replace preserving identity and creation time -/

/-- The event stored by updateEvent for an existing event e and request body:
the body wholesale, with the path identifier, the creation time and HTML
link of e forced back and the update time stamped from the clock. -/
def replacedEvent (body : GEvent) (evId : String) (e : GEvent) (now : Int) : GEvent :=
  { body with
    id := evId
    created := e.created
    updated := formatRFC3339 now
    htmlLink := e.htmlLink }

/-- C7: updating an existing event stores the request body wholesale on all
mutable fields — the stored event is the body except that the identifier,
creation time and HTML link of the existing event are forced and the update
time is stamped from the clock; the result is what a subsequent Get returns,
and when the clock string has advanced strictly past the creation time the
update time is strictly later than the creation time.  In the scenario of
the claim the body differs from the stored event only in Location, so the
stored summary is the unchanged body summary. -/
theorem updateEvent_full_replace (st : ServerState) (cal evId : String) (body : GEvent)
    (now : Int) (e : GEvent) (h : lookupEvent st cal evId = some e) :
    ∃ st',
      updateEvent st cal evId body now = some (st', replacedEvent body evId e now) ∧
      lookupEvent st' cal evId = some (replacedEvent body evId e now) ∧
      (replacedEvent body evId e now).summary = body.summary ∧
      (replacedEvent body evId e now).location = body.location ∧
      (replacedEvent body evId e now).id = evId ∧
      (e.id = evId → (replacedEvent body evId e now).id = e.id) ∧
      (replacedEvent body evId e now).created = e.created ∧
      (replacedEvent body evId e now).updated = formatRFC3339 now ∧
      (goLt e.created (formatRFC3339 now) = true →
        goLt (replacedEvent body evId e now).created
          (replacedEvent body evId e now).updated = true) := by
  unfold lookupEvent at h
  rcases hcal : alGet st.events cal with _ | calEvents
  · rw [hcal] at h
    simp at h
  · rw [hcal, Option.some_bind] at h
    refine ⟨{ st with events := alSet st.events cal (alSet calEvents evId (replacedEvent body evId e now)) },
      ?_, ?_, rfl, rfl, rfl, fun hx => hx.symm, rfl, rfl, fun hx => hx⟩
    · simp only [updateEvent, hcal, h, replacedEvent]
    · unfold lookupEvent
      rw [alGet_alSet_self, Option.some_bind, alGet_alSet_self]

/-- Store holding one freshly inserted event, for the update scenario. -/
def updState : ServerState :=
  (insertEvent initialServer "cal" { summary := "Orig", location := "L1" } 10).1

/-- The stored event of updState. -/
def updOrig : GEvent := (insertEvent initialServer "cal" { summary := "Orig", location := "L1" } 10).2

/-- Update body equal to the stored event except for Location. -/
def updBody : GEvent := { updOrig with location := "L2" }

/-- C7 witness: the location-only update of the scenario, through the
theorem, with the clock one minute later. -/
theorem updateEvent_full_replace_witness :
    lookupEvent updState "cal" "event1" = some updOrig ∧
      ∃ st',
        updateEvent updState "cal" "event1" updBody 70 =
          some (st', replacedEvent updBody "event1" updOrig 70) ∧
        lookupEvent st' "cal" "event1" = some (replacedEvent updBody "event1" updOrig 70) ∧
        (replacedEvent updBody "event1" updOrig 70).summary = updOrig.summary ∧
        (replacedEvent updBody "event1" updOrig 70).location = "L2" ∧
        (replacedEvent updBody "event1" updOrig 70).created = updOrig.created ∧
        goLt (replacedEvent updBody "event1" updOrig 70).created
          (replacedEvent updBody "event1" updOrig 70).updated = true := by
  refine ⟨by decide, ?_⟩
  obtain ⟨st', h1, h2, _, _, _, _, h4, h5, h6⟩ :=
    updateEvent_full_replace updState "cal" "event1" updBody 70 updOrig (by decide)
  exact ⟨st', h1, h2, by decide, by decide, h4, h6 (by decide)⟩

/-! ### C8: no identifier reuse across a server lifetime -/

theorem natDecimalStr_inj {m n : Nat} (h : natDecimalStr m = natDecimalStr n) : m = n := by
  have hm := digitsToNat_natDecAux (m + 1) m (by omega)
  have hn := digitsToNat_natDecAux (n + 1) n (by omega)
  have hdata : natDecAux (m + 1) m [] = natDecAux (n + 1) n [] := congrArg String.data h
  rw [← hm, ← hn, hdata]

theorem genEventId_inj {m n : Nat} (h : genEventId m = genEventId n) : m = n := by
  unfold genEventId at h
  have h2 : "event".data ++ (natDecimalStr m).data = "event".data ++ (natDecimalStr n).data :=
    congrArg String.data h
  exact natDecimalStr_inj (String.ext (List.append_cancel_left h2))

theorem mem_alSet {β : Type} (m : List (String × β)) (key : String) (v : β) (c : String × β)
    (hc : c ∈ alSet m key v) : c = (key, v) ∨ c ∈ m := by
  induction m with
  | nil => simpa [alSet] using hc
  | cons p rest ih =>
    by_cases h : p.1 = key
    · rw [alSet, if_pos h] at hc
      rcases List.mem_cons.mp hc with h1 | h1
      · exact Or.inl h1
      · exact Or.inr (List.mem_cons_of_mem p h1)
    · rw [alSet, if_neg h] at hc
      rcases List.mem_cons.mp hc with h1 | h1
      · exact Or.inr (h1 ▸ List.mem_cons_self p rest)
      · rcases ih h1 with h2 | h2
        · exact Or.inl h2
        · exact Or.inr (List.mem_cons_of_mem p h2)

theorem mem_keys_alSet {β : Type} (m : List (String × β)) (key : String) (v : β) (x : String)
    (hx : x ∈ (alSet m key v).map Prod.fst) : x = key ∨ x ∈ m.map Prod.fst := by
  rcases List.mem_map.mp hx with ⟨c, hc, hfst⟩
  rcases mem_alSet m key v c hc with h1 | h1
  · left
    rw [← hfst, h1]
  · right
    exact hfst ▸ List.mem_map_of_mem Prod.fst h1

theorem mem_keys_alRemove {β : Type} (m : List (String × β)) (key : String) (x : String)
    (hx : x ∈ (alRemove m key).map Prod.fst) : x ∈ m.map Prod.fst := by
  induction m with
  | nil => simp [alRemove] at hx
  | cons p rest ih =>
    rw [List.map_cons]
    by_cases h : p.1 = key
    · rw [alRemove, if_pos h] at hx
      exact List.mem_cons_of_mem p.1 hx
    · rw [alRemove, if_neg h, List.map_cons] at hx
      rcases List.mem_cons.mp hx with h1 | h1
      · exact List.mem_cons.mpr (Or.inl h1)
      · exact List.mem_cons.mpr (Or.inr (ih h1))

theorem alGet_mem {β : Type} (m : List (String × β)) (key : String) (v : β)
    (h : alGet m key = some v) : (key, v) ∈ m := by
  induction m with
  | nil => simp [alGet] at h
  | cons p rest ih =>
    by_cases hp : p.1 = key
    · rw [alGet, if_pos hp] at h
      obtain rfl : p.2 = v := (Option.some.injEq _ _).mp h
      have hpkey : (key, p.2) = p := by
        rw [← hp]
      rw [hpkey]
      exact List.mem_cons_self p rest
    · rw [alGet, if_neg hp] at h
      exact List.mem_cons_of_mem p (ih h)

/-- Identifiers present after storing one event under a calendar are the
stored key or identifiers already present. -/
theorem mem_storeIds_store (evs : List (String × List (String × GEvent))) (cal key : String)
    (ev : GEvent) (x : String)
    (hx : x ∈ (alSet evs cal (alSet ((alGet evs cal).getD []) key ev)).flatMap
      (fun c => c.2.map Prod.fst)) :
    x = key ∨ x ∈ evs.flatMap (fun c => c.2.map Prod.fst) := by
  rcases List.mem_flatMap.mp hx with ⟨c, hc, hxc⟩
  rcases mem_alSet _ _ _ _ hc with h1 | h1
  · subst h1
    rcases mem_keys_alSet _ _ _ _ hxc with h2 | h2
    · exact Or.inl h2
    · rcases hget : alGet evs cal with _ | ce
      · rw [hget] at h2
        simp at h2
      · rw [hget] at h2
        exact Or.inr (List.mem_flatMap.mpr ⟨(cal, ce), alGet_mem _ _ _ hget, h2⟩)
  · exact Or.inr (List.mem_flatMap.mpr ⟨c, h1, hxc⟩)

/-- A successful delete removes exactly one entry of an existing calendar. -/
theorem deleteEvent_cases (st : ServerState) (cal evId : String) (st' : ServerState)
    (h : deleteEvent st cal evId = some st') :
    ∃ calEvents, alGet st.events cal = some calEvents ∧
      st' = { st with events := alSet st.events cal (alRemove calEvents evId) } := by
  unfold deleteEvent at h
  rcases hcal : alGet st.events cal with _ | calEvents
  · rw [hcal] at h
    simp at h
  · simp only [hcal] at h
    rcases hev : alGet calEvents evId with _ | ex
    · simp only [hev] at h
      exact absurd h (by simp)
    · simp only [hev] at h
      exact ⟨calEvents, rfl, ((Option.some.injEq _ _).mp h).symm⟩

/-- Every identifier in the store was generated from a counter value below
the current one. -/
def GoodState (st : ServerState) : Prop :=
  ∀ x ∈ storeIds st, ∃ n, n < st.nextID ∧ x = genEventId n

theorem goodState_initial : GoodState initialServer := by
  intro x hx
  simp [storeIds, initialServer] at hx

/-- Whether an AddEvent trace operation carries no preset identifier. -/
def addHasNoId : MockOp → Bool
  | .add _ ev => ev.id == ""
  | _ => true

theorem goodState_step (st : ServerState) (op : MockOp) (hop : addHasNoId op = true)
    (h : GoodState st) : GoodState (stepOp st op) := by
  cases op with
  | ins cal body now =>
    intro x hx
    rcases mem_storeIds_store st.events cal (genEventId st.nextID) _ x hx with h1 | h1
    · exact ⟨st.nextID, by simp [stepOp, insertEvent], h1⟩
    · obtain ⟨n, hn, hid⟩ := h x h1
      exact ⟨n, by simp [stepOp, insertEvent]; omega, hid⟩
  | add cal ev =>
    have hid : ev.id = "" := by simpa [addHasNoId] using hop
    intro x hx
    have hx2 : x ∈ storeIds (addEvent st cal ev) := hx
    rw [show addEvent st cal ev =
        { events := alSet st.events cal (alSet ((alGet st.events cal).getD [])
            (genEventId st.nextID) { ev with id := genEventId st.nextID }),
          nextID := st.nextID + 1 } from by simp [addEvent, hid]] at hx2
    rcases mem_storeIds_store st.events cal (genEventId st.nextID) _ x hx2 with h1 | h1
    · refine ⟨st.nextID, ?_, h1⟩
      simp [stepOp, addEvent, hid]
    · obtain ⟨n, hn, hid2⟩ := h x h1
      refine ⟨n, ?_, hid2⟩
      simp [stepOp, addEvent, hid]
      omega
  | del cal evId =>
    intro x hx
    rcases hdel : deleteEvent st cal evId with _ | st'
    · have hstep : stepOp st (.del cal evId) = st := by simp [stepOp, hdel]
      rw [hstep] at hx ⊢
      exact h x hx
    · have hstep : stepOp st (.del cal evId) = st' := by simp [stepOp, hdel]
      rw [hstep] at hx ⊢
      obtain ⟨calEvents, hcal, hst'⟩ := deleteEvent_cases st cal evId st' hdel
      subst hst'
      have hx3 : x ∈ storeIds st := by
        unfold storeIds at hx ⊢
        rcases List.mem_flatMap.mp hx with ⟨c, hc, hxc⟩
        rcases mem_alSet _ _ _ _ hc with h1 | h1
        · subst h1
          exact List.mem_flatMap.mpr
            ⟨(cal, calEvents), alGet_mem _ _ _ hcal, mem_keys_alRemove _ _ _ hxc⟩
        · exact List.mem_flatMap.mpr ⟨c, h1, hxc⟩
      exact h x hx3

theorem genEventId_fresh (st : ServerState) (h : GoodState st) :
    genEventId st.nextID ∉ storeIds st := by
  intro hmem
  obtain ⟨n, hlt, heq⟩ := h _ hmem
  exact absurd (genEventId_inj heq).symm (by omega)

theorem stepOp_nextID_le (st : ServerState) (op : MockOp) :
    st.nextID ≤ (stepOp st op).nextID := by
  cases op with
  | ins cal body now => simp [stepOp, insertEvent]
  | add cal ev =>
    by_cases hid : ev.id = ""
    · simp [stepOp, addEvent, hid]
    · simp [stepOp, addEvent, hid]
  | del cal evId =>
    rcases hdel : deleteEvent st cal evId with _ | st'
    · simp [stepOp, hdel]
    · obtain ⟨calEvents, hcal, hst'⟩ := deleteEvent_cases st cal evId st' hdel
      have hstep : stepOp st (.del cal evId) = st' := by simp [stepOp, hdel]
      rw [hstep, hst']

theorem insertIds_ge (ops : List MockOp) :
    ∀ st x, x ∈ insertIds st ops → ∃ n, st.nextID ≤ n ∧ x = genEventId n := by
  induction ops with
  | nil => intro st x hx; simp [insertIds] at hx
  | cons op rest ih =>
    intro st x hx
    cases op with
    | ins cal body now =>
      rw [insertIds] at hx
      rcases List.mem_cons.mp hx with h1 | h1
      · exact ⟨st.nextID, le_refl _, by rw [h1]; rfl⟩
      · obtain ⟨n, hn, hid⟩ := ih _ x h1
        refine ⟨n, le_trans ?_ hn, hid⟩
        exact stepOp_nextID_le st (.ins cal body now)
    | add cal ev =>
      rw [insertIds] at hx
      obtain ⟨n, hn, hid⟩ := ih _ x hx
      exact ⟨n, le_trans (stepOp_nextID_le st (.add cal ev)) hn, hid⟩
    | del cal evId =>
      rw [insertIds] at hx
      obtain ⟨n, hn, hid⟩ := ih _ x hx
      exact ⟨n, le_trans (stepOp_nextID_le st (.del cal evId)) hn, hid⟩

theorem insertIds_nodup (ops : List MockOp) : ∀ st, (insertIds st ops).Nodup := by
  induction ops with
  | nil => intro st; simp [insertIds]
  | cons op rest ih =>
    intro st
    cases op with
    | ins cal body now =>
      rw [insertIds]
      refine List.nodup_cons.mpr ⟨?_, ih _⟩
      intro hmem
      obtain ⟨n, hn, hid⟩ := insertIds_ge rest _ _ hmem
      have : (stepOp st (.ins cal body now)).nextID = st.nextID + 1 := by
        simp [stepOp, insertEvent]
      have heq : (insertEvent st cal body now).2.id = genEventId st.nextID := rfl
      rw [heq] at hid
      have := genEventId_inj hid
      omega
    | add cal ev => rw [insertIds]; exact ih _
    | del cal evId => rw [insertIds]; exact ih _

theorem insertsFresh_of_good (ops : List MockOp) :
    ∀ st, GoodState st → (ops.all addHasNoId = true) → insertsFresh st ops = true := by
  induction ops with
  | nil => intro st _ _; rfl
  | cons op rest ih =>
    intro st hgood hall
    rw [List.all_cons, Bool.and_eq_true] at hall
    cases op with
    | ins cal body now =>
      rw [insertsFresh, Bool.and_eq_true]
      constructor
      · have hfresh : genEventId st.nextID ∉ storeIds st := genEventId_fresh st hgood
        have heq : (insertEvent st cal body now).2.id = genEventId st.nextID := rfl
        rw [heq]
        simpa using hfresh
      · exact ih _ (goodState_step st _ hall.1 hgood) hall.2
    | add cal ev =>
      rw [insertsFresh]
      exact ih _ (goodState_step st _ hall.1 hgood) hall.2
    | del cal evId =>
      rw [insertsFresh]
      exact ih _ (goodState_step st _ hall.1 hgood) hall.2

/-- C8 counterexample: the claim quantifies over traces that interleave the
AddEvent test helper, which stores an event under any caller-chosen
identifier without consuming the counter.  Pre-loading the identifier
event1 makes the next insert return an identifier already present in the
store (silently overwriting the stored event), falsifying both the
freshness and the no-reuse reading of the claim. -/
theorem insert_id_reused_after_preset_add :
    insertsFresh initialServer
        [MockOp.add "c" { id := "event1" }, MockOp.ins "c" {} 0] = false ∧
      insertIds initialServer [MockOp.add "c" { id := "event1" }, MockOp.ins "c" {} 0]
        = ["event1"] ∧
      "event1" ∈ storeIds (stepOp initialServer (MockOp.add "c" { id := "event1" })) := by
  refine ⟨by decide, by decide, by decide⟩

/-- C8 amended: in any trace of inserts, deletes and AddEvent helper calls in
which every AddEvent leaves the identifier empty (so it is auto-assigned),
the identifiers returned by inserts are pairwise distinct and each is absent
from the store at the moment of its insert: generated identifiers are never
reused in the server lifetime, even after deletes.  (Distinctness of the
returned identifiers needs no condition at all; only store-freshness can be
defeated by a preset AddEvent identifier.) -/
theorem insert_ids_unique (ops : List MockOp) (h : ops.all addHasNoId = true) :
    insertsFresh initialServer ops = true ∧ (insertIds initialServer ops).Nodup :=
  ⟨insertsFresh_of_good ops initialServer goodState_initial h, insertIds_nodup ops initialServer⟩

/-- C8 amended, witness: a trace with an insert, a delete of the inserted
event, an auto-assigned AddEvent and another insert. -/
theorem insert_ids_unique_witness :
    insertsFresh initialServer
        [MockOp.ins "c" {} 0, MockOp.del "c" "event1", MockOp.add "c" {},
          MockOp.ins "c" {} 5] = true ∧
      (insertIds initialServer
        [MockOp.ins "c" {} 0, MockOp.del "c" "event1", MockOp.add "c" {},
          MockOp.ins "c" {} 5]).Nodup :=
  insert_ids_unique _ (by decide)

/-! ### C3: time-filter precedence of the client list call -/

/-- Concrete list request carrying an explicit after bound, a non-qualifying
before bound, and both boolean flags set. -/
def reqW : ListEventsRequest :=
  { after := some 5, before := some (-3), future := some true, past := some true }

/-- C3 counterexample: the claim admits any valid non-zero explicit
timestamp, but the client requires a strictly positive one — Unix() > 0.  A
valid negative (pre-epoch) after bound is non-zero, yet the client ignores
it and falls through to the future flag: timeMin is the formatted clock, not
the formatted after bound. -/
theorem buildListCall_negative_after_ignored :
    tsValid (-5) = true ∧ ((-5 : Int) ≠ 0) ∧
      (buildListCall { after := some (-5), future := some true } 1000).timeMin
        = some (formatRFC3339 1000) ∧
      formatRFC3339 1000 ≠ formatRFC3339 (-5) ∧
      (buildListCall { after := some (-5), future := some true } 1000).timeMin
        ≠ some (formatRFC3339 (-5)) := by
  refine ⟨by decide, by decide, by decide, by decide, by decide⟩

theorem tminExplicit_of_pos (req : ListEventsRequest) (t : Int) (hsome : req.after = some t)
    (hexp : explicitAfter req = true) : tminExplicit req = some (formatRFC3339 t) := by
  unfold explicitAfter at hexp
  unfold tminExplicit
  simp only [hsome] at hexp ⊢
  rw [if_pos hexp]

theorem tminExplicit_of_neg (req : ListEventsRequest) (hexp : explicitAfter req = false) :
    tminExplicit req = none := by
  unfold explicitAfter at hexp
  unfold tminExplicit
  rcases hsome : req.after with _ | t
  · rfl
  · simp only [hsome] at hexp ⊢
    rw [if_neg (by simp [hexp])]

theorem tmaxExplicit_of_pos (req : ListEventsRequest) (t : Int) (hsome : req.before = some t)
    (hexp : explicitBefore req = true) : tmaxExplicit req = some (formatRFC3339 t) := by
  unfold explicitBefore at hexp
  unfold tmaxExplicit
  simp only [hsome] at hexp ⊢
  rw [if_pos hexp]

theorem tmaxExplicit_of_neg (req : ListEventsRequest) (hexp : explicitBefore req = false) :
    tmaxExplicit req = none := by
  unfold explicitBefore at hexp
  unfold tmaxExplicit
  rcases hsome : req.before with _ | t
  · rfl
  · simp only [hsome] at hexp ⊢
    rw [if_neg (by simp [hexp])]

/-- C3 amended: with non-zero strengthened to strictly after the epoch.
When either explicit bound is present, valid and strictly positive, the
explicit branch is taken: the future and past flags are ignored (the call
equals the call with both flags cleared), timeMin is the formatted after
bound exactly when after qualifies, timeMax the formatted before bound
exactly when before qualifies; otherwise the future flag sets timeMin to
the formatted clock, else the past flag sets timeMax to the formatted
clock, else no bound is sent.  orderBy=startTime is sent iff some time
bound was set. -/
theorem buildListCall_time_filter (req : ListEventsRequest) (now : Int) :
    ((explicitAfter req = true ∨ explicitBefore req = true) →
      buildListCall req now = buildListCall { req with future := none, past := none } now ∧
      (∀ t, req.after = some t → explicitAfter req = true →
        (buildListCall req now).timeMin = some (formatRFC3339 t)) ∧
      (explicitAfter req = false → (buildListCall req now).timeMin = none) ∧
      (∀ t, req.before = some t → explicitBefore req = true →
        (buildListCall req now).timeMax = some (formatRFC3339 t)) ∧
      (explicitBefore req = false → (buildListCall req now).timeMax = none)) ∧
    (explicitAfter req = false → explicitBefore req = false → req.future = some true →
      (buildListCall req now).timeMin = some (formatRFC3339 now) ∧
      (buildListCall req now).timeMax = none) ∧
    (explicitAfter req = false → explicitBefore req = false → ¬req.future = some true →
      req.past = some true →
      (buildListCall req now).timeMax = some (formatRFC3339 now) ∧
      (buildListCall req now).timeMin = none) ∧
    (explicitAfter req = false → explicitBefore req = false → ¬req.future = some true →
      ¬req.past = some true →
      (buildListCall req now).timeMin = none ∧ (buildListCall req now).timeMax = none) ∧
    ((buildListCall req now).orderBy = some "startTime" ↔
      ((buildListCall req now).timeMin ≠ none ∨ (buildListCall req now).timeMax ≠ none)) := by
  refine ⟨?_, ?_, ?_, ?_, ?_⟩
  · intro hexp
    have hexp' : (explicitAfter req || explicitBefore req) = true := by
      rcases hexp with h | h <;> simp [h]
    have hexp2 : (explicitAfter { req with future := none, past := none } ||
        explicitBefore { req with future := none, past := none }) = true := hexp'
    refine ⟨?_, ?_, ?_, ?_, ?_⟩
    · unfold buildListCall buildBounds
      rw [if_pos hexp', if_pos hexp2]
      rfl
    · intro t hsome hA
      show (buildBounds req now).1 = _
      unfold buildBounds
      rw [if_pos hexp']
      exact tminExplicit_of_pos req t hsome hA
    · intro hA
      show (buildBounds req now).1 = _
      unfold buildBounds
      rw [if_pos hexp']
      exact tminExplicit_of_neg req hA
    · intro t hsome hB
      show (buildBounds req now).2.1 = _
      unfold buildBounds
      rw [if_pos hexp']
      exact tmaxExplicit_of_pos req t hsome hB
    · intro hB
      show (buildBounds req now).2.1 = _
      unfold buildBounds
      rw [if_pos hexp']
      exact tmaxExplicit_of_neg req hB
  · intro hA hB hfut
    have hexp' : ¬(explicitAfter req || explicitBefore req) = true := by simp [hA, hB]
    constructor
    · show (buildBounds req now).1 = _
      unfold buildBounds
      rw [if_neg hexp', if_pos hfut]
    · show (buildBounds req now).2.1 = _
      unfold buildBounds
      rw [if_neg hexp', if_pos hfut]
  · intro hA hB hfut hpast
    have hexp' : ¬(explicitAfter req || explicitBefore req) = true := by simp [hA, hB]
    constructor
    · show (buildBounds req now).2.1 = _
      unfold buildBounds
      rw [if_neg hexp', if_neg hfut, if_pos hpast]
    · show (buildBounds req now).1 = _
      unfold buildBounds
      rw [if_neg hexp', if_neg hfut, if_pos hpast]
  · intro hA hB hfut hpast
    have hexp' : ¬(explicitAfter req || explicitBefore req) = true := by simp [hA, hB]
    constructor
    · show (buildBounds req now).1 = _
      unfold buildBounds
      rw [if_neg hexp', if_neg hfut, if_neg hpast]
    · show (buildBounds req now).2.1 = _
      unfold buildBounds
      rw [if_neg hexp', if_neg hfut, if_neg hpast]
  · show (if (buildBounds req now).2.2 then some "startTime" else none) = some "startTime" ↔
      ((buildBounds req now).1 ≠ none ∨ (buildBounds req now).2.1 ≠ none)
    unfold buildBounds
    by_cases hexp' : (explicitAfter req || explicitBefore req) = true
    · rw [if_pos hexp']
      by_cases h1 : tminExplicit req = none <;> by_cases h2 : tmaxExplicit req = none <;>
        simp [h1, h2, Option.isSome_iff_ne_none]
    · rw [if_neg hexp']
      by_cases hfut : req.future = some true
      · rw [if_pos hfut]
        simp
      · rw [if_neg hfut]
        by_cases hpast : req.past = some true
        · rw [if_pos hpast]
          simp
        · rw [if_neg hpast]
          simp

/-- C3 amended, witness: an explicit after bound wins over both flags, the
non-positive before bound contributes no bound, and ordering is requested. -/
theorem buildListCall_time_filter_witness :
    (buildListCall reqW 1000).timeMin = some (formatRFC3339 5) ∧
      (buildListCall reqW 1000).timeMax = none ∧
      buildListCall reqW 1000 = buildListCall { reqW with future := none, past := none } 1000 ∧
      (buildListCall reqW 1000).orderBy = some "startTime" := by
  obtain ⟨h1, _, _, _, h5⟩ := buildListCall_time_filter reqW 1000
  obtain ⟨heq, hmin, _, _, hmaxN⟩ := h1 (Or.inl (by decide))
  have hm := hmin 5 rfl (by decide)
  refine ⟨hm, hmaxN (by decide), heq, h5.mpr (Or.inl (by rw [hm]; simp))⟩

/-! ### C4: request to event to response round trip -/

/-- Composition of the two mapping directions on a creation request. -/
def roundTrip (req : AddEventRequest) (now : Int) (cal : String) : ProtoEvent :=
  MapEventToProto (MapProtoToEvent req now) cal

/-- Creation request with every guest-permission flag present. -/
def reqFlags : AddEventRequest :=
  { summary := "S"
    startTime := some 1705312800
    endTime := some 1705316400
    guestsCanSeeOtherGuests := some true
    guestsCanModify := some true
    guestsCanInviteOthers := some true }

/-- The same creation request with every guest-permission flag absent. -/
def reqNoFlags : AddEventRequest :=
  { summary := "S"
    startTime := some 1705312800
    endTime := some 1705316400 }

/-- C4 counterexample: the claim says the round trip reproduces the
guest-permission flags, but the event-to-response direction never reads
them: two requests differing exactly in all three guest-permission flags
round-trip to identical responses, so no reading of the response can
recover the flags. -/
theorem roundTrip_loses_guest_flags :
    roundTrip reqFlags 0 "primary" = roundTrip reqNoFlags 0 "primary" ∧
      reqFlags ≠ reqNoFlags ∧
      reqFlags.guestsCanModify = some true ∧ reqNoFlags.guestsCanModify = none ∧
      (MapProtoToEvent reqFlags 0).guestsCanModify ≠
        (MapProtoToEvent reqNoFlags 0).guestsCanModify := by
  refine ⟨by decide, by decide, by decide, by decide, by decide⟩

/-- C4 amended: with the guest-permission flags excluded (they are not
echoed back by the response mapping, as the counterexample shows), the
round trip reproduces every field present in the request: summary;
description and location when present and non-empty (present-empty collapses
to absent); transparency encoding the blocks-time flag; source title and
URL when present and non-empty; the idempotency key as identifier when
present and non-empty; start and end instants (at wire-format second
precision, under the parse-format inverse hypotheses); and organizer and
conference data are absent on freshly mapped events. -/
theorem roundTrip_reproduces_fields (req : AddEventRequest) (now : Int) (cal : String)
    (hs : parseRFC3339 (formatRFC3339 (addDefaultStart req now)) = some (addDefaultStart req now))
    (he : parseRFC3339 (formatRFC3339 (addDefaultEnd req now)) = some (addDefaultEnd req now)) :
    (roundTrip req now cal).summary = req.summary ∧
      (roundTrip req now cal).id =
        (match req.idempotencyKey with | some k => if k = "" then "" else k | none => "") ∧
      (roundTrip req now cal).description =
        (match req.description with | some d => if d = "" then none else some d | none => none) ∧
      (roundTrip req now cal).location =
        (match req.location with | some v => if v = "" then none else some v | none => none) ∧
      (roundTrip req now cal).transparency =
        some (if req.blocksTime = some true then "opaque" else "transparent") ∧
      (roundTrip req now cal).sourceTitle =
        (match req.sourceTitle with | some v => if v = "" then none else some v | none => none) ∧
      (roundTrip req now cal).sourceUrl =
        (match req.sourceUrl with | some v => if v = "" then none else some v | none => none) ∧
      (roundTrip req now cal).startTime = some (addDefaultStart req now) ∧
      (roundTrip req now cal).endTime = some (addDefaultEnd req now) ∧
      (∀ t, req.startTime = some t → (roundTrip req now cal).startTime = some t) ∧
      (∀ t, req.endTime = some t → (roundTrip req now cal).endTime = some t) ∧
      (roundTrip req now cal).organizerEmail = none ∧
      (roundTrip req now cal).organizerName = none ∧
      (roundTrip req now cal).conferenceUri = none ∧
      (roundTrip req now cal).conferenceId = none ∧
      (roundTrip req now cal).calendarId = cal := by
  have hstart : (roundTrip req now cal).startTime = some (addDefaultStart req now) := by
    have h0 : (roundTrip req now cal).startTime =
        startInstant (some ⟨formatRFC3339 (addDefaultStart req now), "", "UTC"⟩) := rfl
    rw [h0]
    simp only [startInstant]
    rw [if_pos (formatRFC3339_ne_empty (addDefaultStart req now)), hs]
  have hend : (roundTrip req now cal).endTime = some (addDefaultEnd req now) := by
    have h0 : (roundTrip req now cal).endTime =
        startInstant (some ⟨formatRFC3339 (addDefaultEnd req now), "", "UTC"⟩) := rfl
    rw [h0]
    simp only [startInstant]
    rw [if_pos (formatRFC3339_ne_empty (addDefaultEnd req now)), he]
  refine ⟨rfl, ?_, ?_, ?_, ?_, ?_, ?_, hstart, hend, ?_, ?_, rfl, rfl, rfl, rfl, rfl⟩
  · rcases hkey : req.idempotencyKey with _ | k
    · simp [roundTrip, MapEventToProto, MapProtoToEvent, hkey]
    · by_cases hk : k = "" <;>
        simp [roundTrip, MapEventToProto, MapProtoToEvent, hkey, hk]
  · rcases hd : req.description with _ | d
    · simp [roundTrip, MapEventToProto, MapProtoToEvent, hd]
    · by_cases hde : d = "" <;>
        simp [roundTrip, MapEventToProto, MapProtoToEvent, hd, hde]
  · rcases hl : req.location with _ | v
    · simp [roundTrip, MapEventToProto, MapProtoToEvent, hl]
    · by_cases hle : v = "" <;>
        simp [roundTrip, MapEventToProto, MapProtoToEvent, hl, hle]
  · by_cases hb : req.blocksTime = some true <;>
      simp [roundTrip, MapEventToProto, MapProtoToEvent, hb]
  · rcases ht : req.sourceTitle with _ | t
    · rcases hu : req.sourceUrl with _ | u
      · simp [roundTrip, MapEventToProto, MapProtoToEvent, ht, hu]
      · by_cases hue : u = "" <;>
          simp [roundTrip, MapEventToProto, MapProtoToEvent, ht, hu, hue]
    · rcases hu : req.sourceUrl with _ | u
      · by_cases hte : t = "" <;>
          simp [roundTrip, MapEventToProto, MapProtoToEvent, ht, hu, hte]
      · by_cases hte : t = "" <;> by_cases hue : u = "" <;>
          simp [roundTrip, MapEventToProto, MapProtoToEvent, ht, hu, hte, hue]
  · rcases ht : req.sourceTitle with _ | t
    · rcases hu : req.sourceUrl with _ | u
      · simp [roundTrip, MapEventToProto, MapProtoToEvent, ht, hu]
      · by_cases hue : u = "" <;>
          simp [roundTrip, MapEventToProto, MapProtoToEvent, ht, hu, hue]
    · rcases hu : req.sourceUrl with _ | u
      · by_cases hte : t = "" <;>
          simp [roundTrip, MapEventToProto, MapProtoToEvent, ht, hu, hte]
      · by_cases hte : t = "" <;> by_cases hue : u = "" <;>
          simp [roundTrip, MapEventToProto, MapProtoToEvent, ht, hu, hte, hue]
  · intro t ht
    rw [hstart]
    unfold addDefaultStart
    rw [ht]
  · intro t ht
    rw [hend]
    unfold addDefaultEnd
    rw [ht]

/-- Fully populated concrete creation request. -/
def reqFull : AddEventRequest :=
  { summary := "Meet"
    description := some "D"
    location := some "Room"
    startTime := some 1705312800
    endTime := some 1705316400
    idempotencyKey := some "key-1"
    sourceTitle := some "Src"
    sourceUrl := some "https://s"
    blocksTime := some true }

/-- C4 amended, witness: a concrete fully populated request round-trips. -/
theorem roundTrip_reproduces_fields_witness :
    (roundTrip reqFull 60 "primary").summary = "Meet" ∧
      (roundTrip reqFull 60 "primary").id = "key-1" ∧
      (roundTrip reqFull 60 "primary").description = some "D" ∧
      (roundTrip reqFull 60 "primary").startTime = some 1705312800 ∧
      (roundTrip reqFull 60 "primary").endTime = some 1705316400 := by
  obtain ⟨h1, h2, h3, _, _, _, _, _, _, h10, h11, _⟩ :=
    roundTrip_reproduces_fields reqFull 60 "primary" (by decide) (by decide)
  exact ⟨h1, h2, h3, h10 1705312800 rfl, h11 1705316400 rfl⟩

/-! ### C6: absent optional fields stay at zero values -/

/-- Creation request with the modify flag explicitly false. -/
def reqModFalse : AddEventRequest := { summary := "S", guestsCanModify := some false }

/-- Creation request with the modify flag absent. -/
def reqModAbsent : AddEventRequest := { summary := "S" }

/-- C6 counterexample: the claim says an omitted guest-permission flag is
distinguishable from an explicit false, but the provider field for
GuestsCanModify is a plain boolean: the mapping dereferences it when present
and leaves the zero value false otherwise, so a request omitting the flag
and one setting it to false map to identical events. -/
theorem guestsCanModify_absent_conflated :
    MapProtoToEvent reqModFalse 0 = MapProtoToEvent reqModAbsent 0 ∧
      reqModFalse ≠ reqModAbsent ∧
      reqModFalse.guestsCanModify = some false ∧ reqModAbsent.guestsCanModify = none := by
  refine ⟨by decide, by decide, by decide, by decide⟩

/-- C6 amended: absent optional fields are left at the provider zero values
(empty strings, nil source, nil pointer flags, zero boolean), and for the two
pointer-typed guest flags an absent flag stays nil, distinguishable from an
explicit false; for GuestsCanModify, a plain boolean on the provider event,
an absent flag collapses to false and is not distinguishable from an
explicit false. -/
theorem mapProtoToEvent_zero_defaults (req : AddEventRequest) (now : Int) :
    (req.description = none → (MapProtoToEvent req now).description = "") ∧
      (req.location = none → (MapProtoToEvent req now).location = "") ∧
      (req.idempotencyKey = none → (MapProtoToEvent req now).id = "") ∧
      (req.sourceTitle = none → req.sourceUrl = none → (MapProtoToEvent req now).source = none) ∧
      (req.guestsCanSeeOtherGuests = none →
        (MapProtoToEvent req now).guestsCanSeeOtherGuests = none) ∧
      (req.guestsCanInviteOthers = none →
        (MapProtoToEvent req now).guestsCanInviteOthers = none) ∧
      (req.guestsCanModify = none → (MapProtoToEvent req now).guestsCanModify = false) ∧
      (MapProtoToEvent { req with guestsCanSeeOtherGuests := some false } now).guestsCanSeeOtherGuests
        = some false ∧
      (MapProtoToEvent { req with guestsCanSeeOtherGuests := none } now).guestsCanSeeOtherGuests
        = none ∧
      (MapProtoToEvent { req with guestsCanInviteOthers := some false } now).guestsCanInviteOthers
        = some false ∧
      (MapProtoToEvent { req with guestsCanInviteOthers := none } now).guestsCanInviteOthers
        = none ∧
      MapProtoToEvent { req with guestsCanModify := some false } now
        = MapProtoToEvent { req with guestsCanModify := none } now := by
  refine ⟨?_, ?_, ?_, ?_, ?_, ?_, ?_, rfl, rfl, rfl, rfl, rfl⟩
  · intro h
    simp [MapProtoToEvent, h]
  · intro h
    simp [MapProtoToEvent, h]
  · intro h
    simp [MapProtoToEvent, h]
  · intro h1 h2
    simp [MapProtoToEvent, h1, h2]
  · intro h
    simp [MapProtoToEvent, h]
  · intro h
    simp [MapProtoToEvent, h]
  · intro h
    simp [MapProtoToEvent, h]

/-- C6 amended, witness at the empty request. -/
theorem mapProtoToEvent_zero_defaults_witness :
    (MapProtoToEvent {} 0).description = "" ∧
      (MapProtoToEvent {} 0).source = none ∧
      (MapProtoToEvent {} 0).guestsCanSeeOtherGuests = none ∧
      (MapProtoToEvent {} 0).guestsCanModify = false ∧
      MapProtoToEvent { ({} : AddEventRequest) with guestsCanModify := some false } 0
        = MapProtoToEvent {} 0 := by
  obtain ⟨h1, _, _, h4, h5, _, h7, _, _, _, _, h12⟩ := mapProtoToEvent_zero_defaults {} 0
  exact ⟨h1 rfl, h4 rfl rfl, h5 rfl, h7 rfl, h12⟩

/-! ### C9: the response mapping is total and degrades silently -/

/-- A response with its time fields cleared, to compare the non-time part. -/
def eraseTimes (p : ProtoEvent) : ProtoEvent := { p with startTime := none, endTime := none }

/-- C9: MapEventToProto is a total function by construction; its start and
end fields are exactly the resolved parse of the corresponding provider
strings, so an unparseable timestamp yields an absent field rather than an
error, and the non-time fields of the conversion do not depend on the start
and end values at all. -/
theorem mapEventToProto_total_lenient (e : GEvent) (cal : String) :
    ((MapEventToProto e cal).startTime = startInstant e.start) ∧
      ((MapEventToProto e cal).endTime = startInstant e.end_) ∧
      (startInstant e.start = none → (MapEventToProto e cal).startTime = none) ∧
      (startInstant e.end_ = none → (MapEventToProto e cal).endTime = none) ∧
      (∀ s₁ s₂, eraseTimes (MapEventToProto { e with start := s₁, end_ := s₂ } cal) =
        eraseTimes (MapEventToProto e cal)) :=
  ⟨rfl, rfl, fun h => h, fun h => h, fun _ _ => rfl⟩

/-- Provider event whose start string parses as neither layout and whose end
carries only an unparseable date-only value. -/
def evBadTimes : GEvent :=
  { summary := "X", start := some ⟨"garbage", "", ""⟩, end_ := some ⟨"", "also-bad", ""⟩ }

/-- C9 witness: unparseable start and end degrade to absent fields while the
rest of the conversion is produced. -/
theorem mapEventToProto_total_lenient_witness :
    (MapEventToProto evBadTimes "c").startTime = none ∧
      (MapEventToProto evBadTimes "c").endTime = none ∧
      (MapEventToProto evBadTimes "c").summary = "X" ∧
      (MapEventToProto evBadTimes "c").calendarId = "c" := by
  obtain ⟨_, _, h3, h4, _⟩ := mapEventToProto_total_lenient evBadTimes "c"
  exact ⟨h3 (by decide), h4 (by decide), rfl, rfl⟩

end Cali
